import Mathlib

/-!
Verification of the resilient calendar ingestion pipeline
(`src/api/calendar.js`): the hand-rolled ICS date/feed parser, the
cascading fetch strategy loop, the tiered freshness cache with its
background-refresh guard, and the filter/sort/limit/format query
pipeline.  JavaScript strings are modelled as `List Char`, JavaScript
`Date` values as calendar fields tagged local/UTC (with the standard
ECMAScript normalization through epoch-millisecond arithmetic, including
the two-digit-year rule of the `Date` constructor), and `NaN`-producing
`parseInt` as an `Option`-valued parser.
-/

/-- JavaScript strings are modelled as lists of characters. -/
abbrev Str := List Char

/-- Whitespace characters recognized by `String.prototype.trim` and
`parseInt` (the common ASCII subset). -/
def isWsChar (c : Char) : Bool :=
  c = ' ' || c = '\t' || c = '\n' || c = '\r' || c = '\x0b' || c = '\x0c'

/-- `s.trim()`: strip whitespace from both ends. -/
def jsTrim (s : Str) : Str :=
  ((s.dropWhile isWsChar).reverse.dropWhile isWsChar).reverse

/-- `s.startsWith(pat)`. -/
def strStartsWith (s pat : Str) : Bool :=
  s.take pat.length = pat

/-- `s.endsWith(pat)`. -/
def strEndsWith (s pat : Str) : Bool :=
  s.reverse.take pat.length = pat.reverse

/-- First index (from `i`) at which `pat` occurs in `s`:
`s.indexOf(pat, i)`, returning `none` for `-1`. -/
def findSubstrIdxAux (pat : Str) : Str → Nat → Option Nat
  | [], i => if pat = [] then some i else none
  | c :: rest, i =>
    if strStartsWith (c :: rest) pat then some i
    else findSubstrIdxAux pat rest (i + 1)

/-- `s.indexOf(pat)`, returning `none` for `-1`. -/
def findSubstrIdx (s pat : Str) : Option Nat :=
  findSubstrIdxAux pat s 0

/-- `s.indexOf(pat, start)`, returning `none` for `-1`. -/
def findSubstrIdxFrom (s pat : Str) (start : Nat) : Option Nat :=
  (findSubstrIdx (s.drop start) pat).map (· + start)

/-- `s.includes(pat)`. -/
def strIncludes (s pat : Str) : Bool :=
  (findSubstrIdx s pat).isSome

/-- `s.substr(start, len)` for non-negative arguments. -/
def strSubstr (s : Str) (start len : Nat) : Str :=
  (s.drop start).take len

/-- `s.replace(pat, '')` for a single-character pattern: remove the
first occurrence only (JavaScript `replace` with a string pattern
replaces only the first match). -/
def removeFirstChar (pat : Char) : Str → Str
  | [] => []
  | c :: rest => if c = pat then rest else c :: removeFirstChar pat rest

/-- `s.toLowerCase()` (ASCII behaviour suffices for this code base). -/
def strToLower (s : Str) : Str :=
  s.map Char.toLower

/-- Digits accumulated left to right, as `parseInt` does. -/
def digitsVal (ds : Str) : Nat :=
  ds.foldl (fun a c => a * 10 + (c.toNat - 48)) 0

/-- The decimal-digit run at the front of `s`, or `none` when there is
none (`parseInt` returns `NaN` in that case). -/
def parseDigits (s : Str) : Option Nat :=
  let ds := s.takeWhile Char.isDigit
  if ds = [] then none else some (digitsVal ds)

/-- `parseInt(s, 10)`: skip whitespace, optional sign, then a decimal
digit run; `none` models `NaN`. -/
def jsParseInt (s : Str) : Option Int :=
  match s.dropWhile isWsChar with
  | [] => none
  | c :: rest =>
    if c = '-' then (parseDigits rest).map (fun n => -(n : Int))
    else if c = '+' then (parseDigits rest).map (fun n => (n : Int))
    else (parseDigits (c :: rest)).map (fun n => (n : Int))

/-- A hexadecimal digit's value, if any. -/
def hexVal (c : Char) : Option Nat :=
  if c.isDigit then some (c.toNat - 48)
  else if 'a' ≤ c && c ≤ 'f' then some (c.toNat - 87)
  else if 'A' ≤ c && c ≤ 'F' then some (c.toNat - 55)
  else none

/-- The hex-digit run at the front of `s`, or `none` when empty. -/
def parseHexDigits (s : Str) : Option Nat :=
  let ds := s.takeWhile (fun c => (hexVal c).isSome)
  if ds = [] then none
  else some (ds.foldl (fun a c => a * 16 + (hexVal c).getD 0) 0)

/-- `parseInt(s)` with no radix argument: as `jsParseInt`, but a
`0x`/`0X` prefix switches to hexadecimal (this is the call used for the
`limit` query parameter). -/
def jsParseIntAuto (s : Str) : Option Int :=
  match s.dropWhile isWsChar with
  | '-' :: '0' :: 'x' :: rest => (parseHexDigits rest).map (fun n => -(n : Int))
  | '-' :: '0' :: 'X' :: rest => (parseHexDigits rest).map (fun n => -(n : Int))
  | '+' :: '0' :: 'x' :: rest => (parseHexDigits rest).map (fun n => (n : Int))
  | '+' :: '0' :: 'X' :: rest => (parseHexDigits rest).map (fun n => (n : Int))
  | '0' :: 'x' :: rest => (parseHexDigits rest).map (fun n => (n : Int))
  | '0' :: 'X' :: rest => (parseHexDigits rest).map (fun n => (n : Int))
  | '-' :: rest => (parseDigits rest).map (fun n => -(n : Int))
  | '+' :: rest => (parseDigits rest).map (fun n => (n : Int))
  | t => (parseDigits t).map (fun n => (n : Int))

/-! ## JavaScript `Date` model -/

/-- The raw calendar-field arguments handed to a `Date` constructor
(month 0-based, exactly as the code passes them; fields may be out of
range and are normalized by the epoch conversion below). -/
structure DateFields where
  year : Int
  month : Int
  day : Int
  hour : Int
  minute : Int
  second : Int
deriving DecidableEq, Repr

/-- A JavaScript `Date` value: invalid (any `NaN` field), or calendar
fields interpreted in UTC (`Date.UTC`) or in server-local time
(`new Date(y, m, ...)`). -/
inductive JSDate where
  | invalid
  | utc (f : DateFields)
  | jslocal (f : DateFields)
deriving DecidableEq, Repr

/-- ECMAScript `MakeFullYear`: constructor year arguments 0–99 are
interpreted as 1900–1999. -/
def makeFullYear (y : Int) : Int :=
  if 0 ≤ y ∧ y ≤ 99 then 1900 + y else y

/-- Days from the civil epoch 1970-01-01 for a normalized date
(`m ∈ [1,12]`), Howard Hinnant's `days_from_civil` with floor
division. -/
def daysFromCivil (y m d : Int) : Int :=
  let yr := if m ≤ 2 then y - 1 else y
  let era := yr.fdiv 400
  let yoe := yr - era * 400
  let doy := (153 * (m + (if 2 < m then -3 else 9)) + 2).fdiv 5 + d - 1
  let doe := yoe * 365 + yoe.fdiv 4 - yoe.fdiv 100 + doy
  era * 146097 + doe - 719468

/-- Civil `(year, month, day)` from a day count since 1970-01-01,
Hinnant's `civil_from_days`. -/
def civilFromDays (z0 : Int) : Int × Int × Int :=
  let z := z0 + 719468
  let era := z.fdiv 146097
  let doe := z - era * 146097
  let yoe := (doe - doe.fdiv 1460 + doe.fdiv 36524 - doe.fdiv 146096).fdiv 365
  let y := yoe + era * 400
  let doy := doe - (365 * yoe + yoe.fdiv 4 - yoe.fdiv 100)
  let mp := (5 * doy + 2).fdiv 153
  let d := doy - (153 * mp + 2).fdiv 5 + 1
  let m := mp + (if mp < 10 then 3 else -9)
  (if m ≤ 2 then y + 1 else y, m, d)

/-- Epoch milliseconds of possibly-out-of-range calendar fields, with
ECMAScript normalization: two-digit years are offset to 1900+, extra
months roll the year, extra days/hours/minutes/seconds roll forward. -/
def epochOfFields (f : DateFields) : Int :=
  let y := makeFullYear f.year
  let ym := y * 12 + f.month
  let yy := ym.fdiv 12
  let mm := ym.emod 12 + 1
  let days := daysFromCivil yy mm 1 + (f.day - 1)
  days * 86400000 + f.hour * 3600000 + f.minute * 60000 + f.second * 1000

/-- `d.getTime()` given the (fixed) server timezone offset `tz` in
milliseconds east of UTC; `none` models `NaN` for an invalid date. -/
def jsGetTime (tz : Int) : JSDate → Option Int
  | .invalid => none
  | .utc f => some (epochOfFields f)
  | .jslocal f => some (epochOfFields f - tz)

/-- The local-clock epoch view used by the local-field getters. -/
def jsLocalEpoch (tz : Int) (d : JSDate) : Option Int :=
  (jsGetTime tz d).map (· + tz)

/-- `d.getHours()`. -/
def jsGetHours (tz : Int) (d : JSDate) : Option Int :=
  (jsLocalEpoch tz d).map (fun t => (t.fdiv 3600000).emod 24)

/-- `d.getMinutes()`. -/
def jsGetMinutes (tz : Int) (d : JSDate) : Option Int :=
  (jsLocalEpoch tz d).map (fun t => (t.fdiv 60000).emod 60)

/-- `d.getFullYear()`. -/
def jsGetFullYear (tz : Int) (d : JSDate) : Option Int :=
  (jsLocalEpoch tz d).map (fun t => (civilFromDays (t.fdiv 86400000)).1)

/-- JavaScript `a >= b` on `Date`s: compare `getTime`; any `NaN`
comparison is false. -/
def jsDateGE (tz : Int) (a b : JSDate) : Bool :=
  match jsGetTime tz a, jsGetTime tz b with
  | some x, some y => decide (y ≤ x)
  | _, _ => false

/-! ## `parseICSDate` (src/api/calendar.js lines 13–57) -/

/-- The date-value interpretation shared by all lines: the body of
`parseICSDate` after `dateStr` and `isUTC` have been extracted.
`none` models returning `null`; `some .invalid` models returning an
Invalid Date (a `NaN` field reached a `Date` constructor — in
JavaScript `parseInt` yields `NaN` rather than throwing). -/
def parseICSDateValue (dateStr : Str) (isUTC : Bool) : Option JSDate :=
  if dateStr.length < 8 then none
  else if dateStr.contains 'T' then
    let clean := removeFirstChar 'Z' dateStr
    if clean.length < 15 then none
    else
      let year := jsParseInt (strSubstr clean 0 4)
      let month := (jsParseInt (strSubstr clean 4 2)).map (· - 1)
      let day := jsParseInt (strSubstr clean 6 2)
      let hour := jsParseInt (strSubstr clean 9 2)
      let minute := jsParseInt (strSubstr clean 11 2)
      let second := (jsParseInt (strSubstr clean 13 2)).getD 0
      match year, month, day, hour, minute with
      | some y, some mo, some d, some h, some mi =>
        if isUTC then some (.utc ⟨y, mo, d, h, mi, second⟩)
        else some (.jslocal ⟨y, mo, d, h, mi, second⟩)
      | _, _, _, _, _ => some .invalid
  else
    let year := jsParseInt (strSubstr dateStr 0 4)
    let month := (jsParseInt (strSubstr dateStr 4 2)).map (· - 1)
    let day := jsParseInt (strSubstr dateStr 6 2)
    match year, month, day with
    | some y, some mo, some d => some (.jslocal ⟨y, mo, d, 0, 0, 0⟩)
    | _, _, _ => some .invalid

/-- The `TZID=` parameter marker. -/
def tzidPat : Str := 'T' :: 'Z' :: 'I' :: 'D' :: '=' :: []

/-- `parseICSDate(icsLine)`: find the first colon, take the value, note
a trailing `Z`, re-take the value after the colon following a `TZID=`
parameter if one is present (the zone name itself is never inspected),
then interpret the value. -/
def parseICSDate (icsLine : Str) : Option JSDate :=
  match findSubstrIdx icsLine [':'] with
  | none => none
  | some colonIndex =>
    let dateStr0 := icsLine.drop (colonIndex + 1)
    let isUTC := strEndsWith dateStr0 ['Z']
    let dateStr :=
      match findSubstrIdx icsLine tzidPat with
      | none => dateStr0
      | some tzidIndex =>
        match findSubstrIdxFrom icsLine [':'] tzidIndex with
        | none => dateStr0
        | some tzStart => icsLine.drop (tzStart + 1)
    parseICSDateValue dateStr isUTC

example : parseICSDate ("DTSTART:20250101".toList) =
    some (.jslocal ⟨2025, 0, 1, 0, 0, 0⟩) := by decide

example : parseICSDate ("DTSTART:20250601T120000Z".toList) =
    some (.utc ⟨2025, 5, 1, 12, 0, 0⟩) := by decide

example : parseICSDate ("DTSTART;TZID=Europe/Rome:20250601T120000".toList) =
    some (.jslocal ⟨2025, 5, 1, 12, 0, 0⟩) := by decide

example : parseICSDate ("DTSTART:short".toList) = none := by decide

example : parseICSDate ("DTSTART:XYXYXYXY".toList) = some .invalid := by decide

example : jsGetFullYear 0 (.jslocal ⟨2025, 0, 1, 0, 0, 0⟩) = some 2025 := by decide

example : jsGetFullYear 0 (.jslocal ⟨50, 0, 1, 0, 0, 0⟩) = some 1950 := by decide

/-! ## `parseCalendarData` (src/api/calendar.js lines 59–97) -/

/-- Split on the regex `/\r?\n/` as `icsData.split` does: `\n` and
`\r\n` terminate a chunk; a lone `\r` stays in the chunk. -/
def splitLinesAux : Str → Str → List Str
  | [], acc => [acc.reverse]
  | [c], acc => if c = '\n' then [acc.reverse, []] else [(c :: acc).reverse]
  | c :: c2 :: rest, acc =>
    if c = '\n' then acc.reverse :: splitLinesAux (c2 :: rest) []
    else if c = '\r' && c2 = '\n' then acc.reverse :: splitLinesAux rest []
    else splitLinesAux (c2 :: rest) (c :: acc)

/-- `icsData.split(/\r?\n/)`. -/
def splitLines (s : Str) : List Str :=
  splitLinesAux s []

/-- A committed calendar event: `{ summary, dtstart, dtend? }`. -/
structure CalEvent where
  summary : Str
  dtstart : JSDate
  dtend : Option JSDate
deriving DecidableEq, Repr

/-- The in-progress event object built between `BEGIN:VEVENT` and
`END:VEVENT`. -/
structure PartialEvent where
  summary : Option Str := none
  dtstart : Option JSDate := none
  dtend : Option JSDate := none
deriving DecidableEq, Repr

/-- The guard `date && date.getFullYear() > 2020` (an Invalid Date has
`NaN` year, and `NaN > 2020` is false). -/
def yearPlausible (tz : Int) (d : JSDate) : Bool :=
  match jsGetFullYear tz d with
  | some y => decide (2020 < y)
  | none => false

/-- Processing of one line inside an event block: `SUMMARY:` overwrites
the summary, `DTSTART*`/`DTEND*` overwrite the date field only when the
parse produced a date passing the year-plausibility guard. -/
def propStep (tz : Int) (pe : PartialEvent) (line : Str) : PartialEvent :=
  if strStartsWith line ("SUMMARY:".toList) then
    { pe with summary := some (line.drop 8) }
  else if strStartsWith line ("DTSTART".toList) then
    match parseICSDate line with
    | some d => if yearPlausible tz d then { pe with dtstart := some d } else pe
    | none => pe
  else if strStartsWith line ("DTEND".toList) then
    match parseICSDate line with
    | some d => if yearPlausible tz d then { pe with dtend := some d } else pe
    | none => pe
  else pe

/-- Commit at `END:VEVENT`: the event is pushed only when the summary is
truthy (present and non-empty) and a start was accepted, and the start
is on or after `today`. -/
def commitEvent (tz : Int) (today : JSDate) (pe : PartialEvent) : List CalEvent :=
  match pe.summary, pe.dtstart with
  | some s, some d =>
    if s ≠ [] ∧ jsDateGE tz d today then [⟨s, d, pe.dtend⟩] else []
  | _, _ => []

/-- Parser state: the optional in-progress event and the committed
events so far. -/
structure PState where
  cur : Option PartialEvent
  events : List CalEvent
deriving DecidableEq, Repr

/-- One trimmed line of the scanning loop of `parseCalendarData`. -/
def processLine (tz : Int) (today : JSDate) (st : PState) (line : Str) : PState :=
  if line = ("BEGIN:VEVENT".toList) then { st with cur := some {} }
  else if line = ("END:VEVENT".toList) then
    match st.cur with
    | some pe => { cur := none, events := st.events ++ commitEvent tz today pe }
    | none => { st with cur := none }
  else
    match st.cur with
    | some pe => { st with cur := some (propStep tz pe line) }
    | none => st

/-- `parseCalendarData(icsData)` with the call-time day reference
`today` (built in the source from `new Date()` at the start of the
call) made an explicit parameter. -/
def parseCalendarData (tz : Int) (today : JSDate) (icsData : Str) : List CalEvent :=
  ((splitLines icsData).map jsTrim).foldl (processLine tz today) ⟨none, []⟩ |>.events

example :
    parseCalendarData 0 (.jslocal ⟨2025, 0, 1, 0, 0, 0⟩)
      (("BEGIN:VCALENDAR\nBEGIN:VEVENT\nSUMMARY:Math Exam\nDTSTART:20990615\nEND:VEVENT\nEND:VCALENDAR").toList) =
      [⟨("Math Exam".toList), .jslocal ⟨2099, 5, 15, 0, 0, 0⟩, none⟩] := by decide

example :
    parseCalendarData 0 (.jslocal ⟨2025, 0, 1, 0, 0, 0⟩)
      (("BEGIN:VEVENT\r\nSUMMARY:Old\r\nDTSTART:20240101\r\nEND:VEVENT").toList) = [] := by
  decide

/-! ## `fetchCalendarWithFallback` (src/api/calendar.js lines 100–178) -/

deriving instance DecidableEq for Except

/-- The outcome of one strategy attempt as the environment provides it:
either the time bound fired (the request was aborted) or a response
arrived with a success flag and a body. -/
inductive FetchOutcome where
  | timeout
  | response (ok : Bool) (body : Str)
deriving DecidableEq, Repr

/-- The failure a single strategy attempt can raise. -/
inductive AttemptError where
  | aborted
  | httpStatus
  | tooShort
  | badFormat
deriving DecidableEq, Repr

/-- The `BEGIN:VCALENDAR` marker. -/
def calMarker : Str := "BEGIN:VCALENDAR".toList

/-- The `BEGIN:VEVENT` marker. -/
def evMarker : Str := "BEGIN:VEVENT".toList

/-- One strategy attempt: HTTP failure, an implausibly short body, and
a body with neither `BEGIN:VCALENDAR` nor `BEGIN:VEVENT` are thrown;
otherwise the raw body is returned. -/
def attemptStrategy : FetchOutcome → Except AttemptError Str
  | .timeout => .error .aborted
  | .response ok body =>
    if !ok then .error .httpStatus
    else if body.length < 50 then .error .tooShort
    else if !(strIncludes body calMarker) &&
            !(strIncludes body evMarker) then .error .badFormat
    else .ok body

/-- The strategy loop with the `lastError` variable threaded through:
every failure (timeout or not) falls through to the next strategy, and
exhaustion throws the last error (`none` models the `lastError || ...`
fallback for an empty strategy list). -/
def fetchLoop (lastErr : Option AttemptError) : List FetchOutcome → Except (Option AttemptError) Str
  | [] => .error lastErr
  | o :: rest =>
    match attemptStrategy o with
    | .ok body => .ok body
    | .error e => fetchLoop (some e) rest

/-- `fetchCalendarWithFallback`, abstracted over the per-strategy
outcomes the network produces for this call. -/
def fetchCalendarWithFallback (outcomes : List FetchOutcome) : Except (Option AttemptError) Str :=
  fetchLoop none outcomes

/-- The body of the first outcome whose attempt succeeds, if any. -/
def firstSuccess (outcomes : List FetchOutcome) : Option Str :=
  outcomes.findSome? (fun o => (attemptStrategy o).toOption)

/-- The error of the last attempt, if every attempt fails. -/
def lastAttemptError (fallback : Option AttemptError) : List FetchOutcome → Option AttemptError
  | [] => fallback
  | o :: rest =>
    match attemptStrategy o with
    | .ok _ => lastAttemptError fallback rest
    | .error e => lastAttemptError (some e) rest

example :
    fetchCalendarWithFallback [.timeout, .response true (List.replicate 60 'B')] =
      .error (some .badFormat) := by decide

/-! ## The cache and the background refresh (src/api/calendar.js lines 3–11, 181–207) -/

/-- The module-level `calendarCache` object. -/
structure Cache where
  data : Option (List CalEvent)
  timestamp : Int
  lastSuccessfulFetch : Int
  ttl : Int
  maxStaleAge : Int
  fetchInProgress : Bool
deriving DecidableEq, Repr

/-- The cache as initialized at module load: no data, 15-minute primary
window, 24-hour maximum stale age. -/
def initialCache : Cache :=
  { data := none
    timestamp := 0
    lastSuccessfulFetch := 0
    ttl := 15 * 60 * 1000
    maxStaleAge := 24 * 60 * 60 * 1000
    fetchInProgress := false }

/-- The system state for the background-refresh protocol: the cache
plus the number of `backgroundRefresh` bodies currently past their
re-entrancy check, and a counter of fetches ever started. -/
structure BgState where
  cache : Cache
  inFlight : Nat
  fetchAttempts : Nat
deriving DecidableEq, Repr

/-- Events of the background-refresh protocol.  `trigger` is the
synchronous front of `backgroundRefresh` (the re-entrancy check and the
flag set happen with no intervening await, hence atomically on the
JavaScript event loop); the finish events are the resolution of the
awaited fetch-and-parse. -/
inductive BgEvent where
  | trigger
  | finishSuccess (events : List CalEvent) (now : Int)
  | finishFailure
deriving DecidableEq, Repr

/-- One protocol step.  A trigger while `fetchInProgress` is a no-op; a
successful finish installs the new events and timestamps and clears the
flag; a failed finish only clears the flag. -/
def bgStep (s : BgState) : BgEvent → BgState
  | .trigger =>
    if s.cache.fetchInProgress then s
    else
      { s with
        cache := { s.cache with fetchInProgress := true }
        inFlight := s.inFlight + 1
        fetchAttempts := s.fetchAttempts + 1 }
  | .finishSuccess events now =>
    if s.inFlight = 0 then s
    else
      { s with
        cache := { s.cache with
          data := some events
          timestamp := now
          lastSuccessfulFetch := now
          fetchInProgress := false }
        inFlight := s.inFlight - 1 }
  | .finishFailure =>
    if s.inFlight = 0 then s
    else
      { s with
        cache := { s.cache with fetchInProgress := false }
        inFlight := s.inFlight - 1 }

/-- Run a sequence of protocol events. -/
def bgRun (s : BgState) (evs : List BgEvent) : BgState :=
  evs.foldl bgStep s

/-- The single-flight invariant: at most one refresh is executing, and
a clear flag means none is. -/
def bgInv (s : BgState) : Prop :=
  s.inFlight ≤ 1 ∧ (s.cache.fetchInProgress = false → s.inFlight = 0)

theorem bgStep_preserves_inv (s : BgState) (e : BgEvent) (h : bgInv s) :
    bgInv (bgStep s e) := by
  obtain ⟨h1, h2⟩ := h
  cases e with
  | trigger =>
    by_cases hf : s.cache.fetchInProgress
    · simp [bgStep, hf, bgInv, h1, h2]
    · simp only [Bool.not_eq_true] at hf
      have := h2 hf
      simp [bgStep, hf, bgInv, this]
  | finishSuccess events now =>
    by_cases hz : s.inFlight = 0
    · simp [bgStep, hz, bgInv, h1, h2]
    · simp only [bgStep, if_neg hz, bgInv]
      constructor
      · omega
      · intro; omega
  | finishFailure =>
    by_cases hz : s.inFlight = 0
    · simp [bgStep, hz, bgInv, h1, h2]
    · simp only [bgStep, if_neg hz, bgInv]
      constructor
      · omega
      · intro; omega

theorem bgRun_preserves_inv (s : BgState) (evs : List BgEvent) (h : bgInv s) :
    bgInv (bgRun s evs) := by
  induction evs generalizing s with
  | nil => exact h
  | cons e rest ih => exact ih (bgStep s e) (bgStep_preserves_inv s e h)

/-! ## The query pipeline and the request handler (src/api/calendar.js lines 209–375) -/

/-- Stable insertion of an event into a list sorted by start time: the
new element goes after every element with a key not larger than its
own. -/
def insertByStart (key : CalEvent → Int) (x : CalEvent) : List CalEvent → List CalEvent
  | [] => [x]
  | y :: ys => if key x < key y then x :: y :: ys else y :: insertByStart key x ys

/-- Stable sort by start time, modelling
`filtered.sort((a, b) => a.dtstart.getTime() - b.dtstart.getTime())`
(ECMAScript `Array.prototype.sort` is stable). -/
def sortByStart (key : CalEvent → Int) : List CalEvent → List CalEvent
  | [] => []
  | x :: xs => insertByStart key x (sortByStart key xs)

/-- The sort key used by the comparator. -/
def startKey (tz : Int) (e : CalEvent) : Int :=
  (jsGetTime tz e.dtstart).getD 0

/-- `arr.slice(0, limit)` for a possibly negative JavaScript number
`limit`: a negative end counts from the end of the array. -/
def jsSliceTo (l : List CalEvent) (e : Int) : List CalEvent :=
  l.take (if e < 0 then ((l.length : Int) + e).toNat else e.toNat)

/-- The client-facing event shape.  `startDate`/`endDate` stand for the
ISO-8601 epoch instants that `toISOString` renders; the locale strings
are derived from the same instants and the `isAllDay` flag. -/
structure FormattedEvent where
  summary : Str
  startDate : Option Int
  endDate : Option (Option Int)
  isAllDay : Bool
deriving DecidableEq, Repr

/-- The `map` body of the formatting stage: `isAllDay` is true when the
end is absent or both the start and the end sit exactly on a zero
hour/minute local boundary. -/
def formatEvent (tz : Int) (e : CalEvent) : FormattedEvent :=
  let isAllDay :=
    match e.dtend with
    | none => true
    | some ed =>
      (jsGetHours tz e.dtstart == some 0) && (jsGetMinutes tz e.dtstart == some 0) &&
      (jsGetHours tz ed == some 0) && (jsGetMinutes tz ed == some 0)
  { summary := e.summary
    startDate := jsGetTime tz e.dtstart
    endDate := e.dtend.map (jsGetTime tz)
    isAllDay := isAllDay }

/-- The query parameters reaching the handler. -/
structure Query where
  test : Bool
  keyword : Option Str
  limit : Option Str
deriving DecidableEq, Repr

/-- The keyword after `?.toString().trim().toLowerCase()`. -/
def effectiveKeyword (q : Query) : Option Str :=
  q.keyword.map (fun s => strToLower (jsTrim s))

/-- `parseInt(req.query.limit) || 100`: `NaN` (absent or unparsable)
and `0` both fall back to 100. -/
def resolveLimit (q : Query) : Int :=
  match q.limit.bind jsParseIntAuto with
  | none => 100
  | some v => if v = 0 then 100 else v

/-- The keyword-filter stage: a truthy (non-empty) processed keyword
filters by case-insensitive substring match on the summary. -/
def keywordFiltered (q : Query) (events : List CalEvent) : List CalEvent :=
  match effectiveKeyword q with
  | some k =>
    if k ≠ [] then events.filter (fun e => strIncludes (strToLower e.summary) k)
    else events
  | none => events

/-- Filter, sort, truncate and format the served events; returns the
payload list (whose length is the reported `count`). -/
def applyPipeline (tz : Int) (q : Query) (events : List CalEvent) : List FormattedEvent :=
  let sorted := sortByStart (startKey tz) (keywordFiltered q events)
  let limit := resolveLimit q
  let truncated := if (sorted.length : Int) > limit then jsSliceTo sorted limit else sorted
  truncated.map (formatEvent tz)

/-- Which tier served the data (`dataSource` in the response). -/
inductive DataSource where
  | fresh_cache
  | stale_cache
  | fresh_fetch
  | emergency_cache
deriving DecidableEq, Repr

/-- The handler's observable responses.  `sourceUnavailable` is the 503
payload produced when no cache exists and the synchronous fetch failed;
`internalError` is the generic 500 of the outer catch. -/
inductive HandlerOut where
  | testInfo
  | missingUrl
  | ok (dataSource : DataSource) (events : List FormattedEvent) (count : Nat)
  | sourceUnavailable
  | internalError
deriving DecidableEq, Repr

/-- The HTTP status each response is sent with. -/
def statusOf : HandlerOut → Nat
  | .testInfo => 200
  | .missingUrl => 400
  | .ok _ _ _ => 200
  | .sourceUnavailable => 503
  | .internalError => 500

/-- One request through `module.exports`: the current time `now`, the
day reference `parseToday` that a synchronous parse would capture, and
the outcome `fetchResult` a synchronous fetch would produce are explicit
parameters.  Returns the response, the cache afterwards, and whether a
background refresh was triggered. -/
def handleRequest (tz : Int) (urlSet : Bool) (cache : Cache) (now : Int)
    (parseToday : JSDate) (q : Query)
    (fetchResult : Except (Option AttemptError) Str) :
    HandlerOut × Cache × Bool :=
  if q.test then (.testInfo, cache, false)
  else if !urlSet then (.missingUrl, cache, false)
  else if cache.data.isSome ∧ now - cache.timestamp < cache.ttl then
    (.ok .fresh_cache (applyPipeline tz q (cache.data.getD []))
      (applyPipeline tz q (cache.data.getD [])).length, cache, false)
  else if cache.data.isSome ∧ now - cache.timestamp < cache.maxStaleAge then
    ((.ok .stale_cache (applyPipeline tz q (cache.data.getD []))
        (applyPipeline tz q (cache.data.getD [])).length),
      (bgStep ⟨cache, 0, 0⟩ .trigger).cache, true)
  else
    match fetchResult with
    | .ok icsData =>
      let parsedEvents := parseCalendarData tz parseToday icsData
      let cache' := { cache with
        data := some parsedEvents
        timestamp := now
        lastSuccessfulFetch := now
        fetchInProgress := false }
      (.ok .fresh_fetch (applyPipeline tz q parsedEvents)
        (applyPipeline tz q parsedEvents).length, cache', false)
    | .error _ =>
      match cache.data with
      | some events =>
        (.ok .emergency_cache (applyPipeline tz q events)
          (applyPipeline tz q events).length, cache, false)
      | none => (.sourceUnavailable, cache, false)

example :
    handleRequest 0 true initialCache 1000 .invalid ⟨false, none, none⟩
      (.error (some .aborted)) = (.sourceUnavailable, initialCache, false) := by decide

/-! ## Shared lemmas -/

theorem fetchLoop_eq (outs : List FetchOutcome) (lastErr : Option AttemptError) :
    fetchLoop lastErr outs =
      match firstSuccess outs with
      | some b => .ok b
      | none => .error (lastAttemptError lastErr outs) := by
  induction outs generalizing lastErr with
  | nil => simp [fetchLoop, firstSuccess, lastAttemptError]
  | cons o rest ih =>
    simp only [fetchLoop, firstSuccess, List.findSome?_cons]
    cases h : attemptStrategy o with
    | ok b => simp [h, Except.toOption]
    | error e => simpa [h, Except.toOption, firstSuccess, lastAttemptError] using ih (some e)

theorem lastAttemptError_isSome (outs : List FetchOutcome) (fallback : Option AttemptError)
    (hne : fallback.isSome = true ∨ outs ≠ [])
    (hfail : firstSuccess outs = none) :
    (lastAttemptError fallback outs).isSome = true := by
  induction outs generalizing fallback with
  | nil =>
    rcases hne with h | h
    · simpa [lastAttemptError] using h
    · exact absurd rfl h
  | cons o rest ih =>
    simp only [firstSuccess, List.findSome?_cons] at hfail
    cases h : attemptStrategy o with
    | ok b => simp [h, Except.toOption] at hfail
    | error e =>
      simp only [h, Except.toOption] at hfail
      simp only [lastAttemptError, h]
      exact ih (some e) (Or.inl rfl) hfail

theorem length_insertByStart (key : CalEvent → Int) (x : CalEvent) (l : List CalEvent) :
    (insertByStart key x l).length = l.length + 1 := by
  induction l with
  | nil => rfl
  | cons y ys ih =>
    by_cases h : key x < key y
    · simp [insertByStart, h]
    · simp [insertByStart, h, ih]

theorem length_sortByStart (key : CalEvent → Int) (l : List CalEvent) :
    (sortByStart key l).length = l.length := by
  induction l with
  | nil => rfl
  | cons x xs ih => simp [sortByStart, length_insertByStart, ih]

theorem mem_insertByStart (key : CalEvent → Int) (x a : CalEvent) (l : List CalEvent) :
    a ∈ insertByStart key x l ↔ a = x ∨ a ∈ l := by
  induction l with
  | nil => simp [insertByStart]
  | cons y ys ih =>
    by_cases h : key x < key y
    · simp only [insertByStart, if_pos h, List.mem_cons]
    · simp only [insertByStart, if_neg h, List.mem_cons, ih]
      tauto

theorem mem_sortByStart (key : CalEvent → Int) (a : CalEvent) (l : List CalEvent) :
    a ∈ sortByStart key l ↔ a ∈ l := by
  induction l with
  | nil => simp [sortByStart]
  | cons x xs ih =>
    simp [sortByStart, mem_insertByStart, ih]

theorem mem_of_mem_jsSliceTo (l : List CalEvent) (e : Int) (a : CalEvent)
    (h : a ∈ jsSliceTo l e) : a ∈ l := by
  simp only [jsSliceTo] at h
  exact List.mem_of_mem_take h

theorem mem_of_mem_keywordFiltered (q : Query) (events : List CalEvent) (a : CalEvent)
    (h : a ∈ keywordFiltered q events) : a ∈ events := by
  unfold keywordFiltered at h
  revert h
  cases effectiveKeyword q with
  | none => exact id
  | some k =>
    intro h
    have h2 : a ∈ (if k ≠ [] then
        events.filter (fun e => strIncludes (strToLower e.summary) k) else events) := h
    by_cases hne : k ≠ []
    · rw [if_pos hne] at h2
      exact (List.mem_filter.mp h2).1
    · rw [if_neg hne] at h2
      exact h2

/-- Every formatted event of the pipeline output comes from a served
event. -/
theorem applyPipeline_mem (tz : Int) (q : Query) (events : List CalEvent)
    (fe : FormattedEvent) (hfe : fe ∈ applyPipeline tz q events) :
    ∃ e ∈ events, fe = formatEvent tz e := by
  simp only [applyPipeline] at hfe
  rcases List.mem_map.mp hfe with ⟨e, he, rfl⟩
  refine ⟨e, ?_, rfl⟩
  have hsorted : e ∈ sortByStart (startKey tz) (keywordFiltered q events) := by
    by_cases h : ((sortByStart (startKey tz) (keywordFiltered q events)).length : Int) >
        resolveLimit q
    · rw [if_pos h] at he
      exact mem_of_mem_jsSliceTo _ _ _ he
    · rw [if_neg h] at he
      exact he
  exact mem_of_mem_keywordFiltered q events e ((mem_sortByStart _ _ _).mp hsorted)

/-! ## Claim theorems -/

/-- C1: for every request served in the expired/absent cache tier
(no cached events, or cache age at or beyond the stale window) whose
synchronous fetch fails: if a previously cached event list still
exists it is served successfully (HTTP 200, `emergency_cache` source)
as an emergency fallback; if no cached list exists the request fails
with the `sourceUnavailable` (503) condition, which is distinguishable
from the generic internal error (500). -/
theorem expired_tier_fallback_or_unavailable
    (tz : Int) (cache : Cache) (now : Int) (parseToday : JSDate) (q : Query)
    (e : Option AttemptError)
    (htest : q.test = false)
    (httl : cache.ttl ≤ cache.maxStaleAge)
    (htier : cache.data = none ∨ cache.maxStaleAge ≤ now - cache.timestamp) :
    (∀ events, cache.data = some events →
      handleRequest tz true cache now parseToday q (.error e) =
        (.ok .emergency_cache (applyPipeline tz q events)
          (applyPipeline tz q events).length, cache, false)) ∧
    (cache.data = none →
      handleRequest tz true cache now parseToday q (.error e) =
        (.sourceUnavailable, cache, false)) ∧
    statusOf .sourceUnavailable = 503 ∧ statusOf .internalError = 500 ∧
    HandlerOut.sourceUnavailable ≠ HandlerOut.internalError := by
  refine ⟨?_, ?_, rfl, rfl, by decide⟩
  · intro events hdata
    have hstale : cache.maxStaleAge ≤ now - cache.timestamp := by
      rcases htier with h | h
      · rw [hdata] at h
        cases h
      · exact h
    have hlt1 : ¬ (now - cache.timestamp < cache.ttl) := by omega
    have hlt2 : ¬ (now - cache.timestamp < cache.maxStaleAge) := by omega
    simp [handleRequest, htest, hlt1, hlt2, hdata]
  · intro hdata
    have h1 : ¬ (cache.data.isSome = true ∧ now - cache.timestamp < cache.ttl) := by
      rintro ⟨hs, -⟩
      rw [hdata] at hs
      cases hs
    have h2 : ¬ (cache.data.isSome = true ∧ now - cache.timestamp < cache.maxStaleAge) := by
      rintro ⟨hs, -⟩
      rw [hdata] at hs
      cases hs
    simp [handleRequest, htest, h1, h2, hdata]

theorem expired_tier_fallback_or_unavailable_witness :
    Query.test ⟨false, none, none⟩ = false ∧
    initialCache.ttl ≤ initialCache.maxStaleAge ∧
    (initialCache.data = none ∨ initialCache.maxStaleAge ≤ 1000 - initialCache.timestamp) ∧
    handleRequest 0 true initialCache 1000 .invalid ⟨false, none, none⟩
      (.error (some .aborted)) = (.sourceUnavailable, initialCache, false) := by
  refine ⟨rfl, by decide, Or.inl rfl, ?_⟩
  exact (expired_tier_fallback_or_unavailable 0 initialCache 1000 .invalid
    ⟨false, none, none⟩ (some .aborted) rfl (by decide) (Or.inl rfl)).2.1 rfl

/-- C3: at most one background refresh is ever in flight.  A trigger
while `fetchInProgress` is set is a complete no-op (in particular the
fetch-attempt counter does not move), and along every event trace from
a state satisfying the single-flight invariant the number of concurrent
background fetches stays at most one.  In the stale-but-usable tier the
handler's cache update is exactly one protocol trigger. -/
theorem background_refresh_single_flight
    (s0 : BgState) (evs : List BgEvent) (h : bgInv s0) :
    (bgRun s0 evs).inFlight ≤ 1 ∧
    (∀ s : BgState, s.cache.fetchInProgress = true → bgStep s .trigger = s) ∧
    (∀ tz cache now parseToday q fetchResult events,
      q.test = false → cache.data = some events →
      cache.ttl ≤ now - cache.timestamp → now - cache.timestamp < cache.maxStaleAge →
      (handleRequest tz true cache now parseToday q fetchResult).2 =
        ((bgStep ⟨cache, 0, 0⟩ .trigger).cache, true)) := by
  refine ⟨(bgRun_preserves_inv s0 evs h).1, ?_, ?_⟩
  · intro s hf
    simp [bgStep, hf]
  · intro tz cache now parseToday q fetchResult events htest hdata hfresh hstale
    have hlt1 : ¬ (now - cache.timestamp < cache.ttl) := by omega
    simp [handleRequest, htest, hdata, hlt1, hstale]

theorem background_refresh_single_flight_witness :
    bgInv ⟨initialCache, 0, 0⟩ ∧
    (bgRun ⟨initialCache, 0, 0⟩ [.trigger, .trigger, .finishFailure, .trigger]).inFlight ≤ 1 := by
  have h : bgInv ⟨initialCache, 0, 0⟩ := by
    constructor
    · decide
    · intro
      rfl
  exact ⟨h, (background_refresh_single_flight ⟨initialCache, 0, 0⟩
    [.trigger, .trigger, .finishFailure, .trigger] h).1⟩

/-- C4: a failing background refresh leaves the cached events, the
fetch timestamp and the last-success timestamp unchanged — only the
in-flight flag is cleared — and the stale-tier response of the request
that triggered the refresh does not depend on the fetch outcome at
all. -/
theorem failed_refresh_frame
    (s : BgState)
    (tz : Int) (cache : Cache) (now : Int) (parseToday : JSDate) (q : Query)
    (events : List CalEvent)
    (htest : q.test = false) (hdata : cache.data = some events)
    (hfresh : cache.ttl ≤ now - cache.timestamp)
    (hstale : now - cache.timestamp < cache.maxStaleAge) :
    ((bgStep s .finishFailure).cache.data = s.cache.data ∧
      (bgStep s .finishFailure).cache.timestamp = s.cache.timestamp ∧
      (bgStep s .finishFailure).cache.lastSuccessfulFetch = s.cache.lastSuccessfulFetch ∧
      (s.inFlight ≠ 0 → (bgStep s .finishFailure).cache.fetchInProgress = false)) ∧
    (∀ f1 f2 : Except (Option AttemptError) Str,
      (handleRequest tz true cache now parseToday q f1).1 =
        (handleRequest tz true cache now parseToday q f2).1) ∧
    (handleRequest tz true cache now parseToday q (.error none)).1 =
      .ok .stale_cache (applyPipeline tz q events) (applyPipeline tz q events).length := by
  have hlt1 : ¬ (now - cache.timestamp < cache.ttl) := by omega
  refine ⟨?_, ?_, ?_⟩
  · by_cases hz : s.inFlight = 0
    · simp [bgStep, hz]
    · simp [bgStep, hz]
  · intro f1 f2
    simp [handleRequest, htest, hdata, hlt1, hstale]
  · simp [handleRequest, htest, hdata, hlt1, hstale]

/-- A sample stale-but-usable cache state for concrete instantiation. -/
def staleCacheSample : Cache :=
  { initialCache with data := some [], timestamp := 0 }

theorem failed_refresh_frame_witness :
    Query.test ⟨false, none, none⟩ = false ∧
    staleCacheSample.data = some [] ∧
    staleCacheSample.ttl ≤ 1000000 - staleCacheSample.timestamp ∧
    1000000 - staleCacheSample.timestamp < staleCacheSample.maxStaleAge ∧
    (handleRequest 0 true staleCacheSample 1000000 .invalid ⟨false, none, none⟩
      (.error none)).1 = .ok .stale_cache [] 0 := by
  refine ⟨rfl, rfl, by decide, by decide, ?_⟩
  exact (failed_refresh_frame ⟨initialCache, 0, 0⟩ 0 staleCacheSample 1000000 .invalid
    ⟨false, none, none⟩ [] rfl rfl (by decide) (by decide)).2.2

/-- Whether a single strategy attempt fails. -/
def attemptFails (o : FetchOutcome) : Bool :=
  match attemptStrategy o with
  | .ok _ => false
  | .error _ => true

/-- C5: a strategy attempt fails exactly when it times out, the
response is not a success status, the body is shorter than 50
characters, or the body contains neither a `BEGIN:VCALENDAR` nor a
`BEGIN:VEVENT` marker; the fetcher returns the raw body of the first
succeeding strategy; and it fails only after every strategy has been
attempted, carrying the last underlying error. -/
theorem fetch_fallback_first_success_last_error
    (outcomes : List FetchOutcome) (hne : outcomes ≠ []) :
    (∀ o : FetchOutcome, attemptFails o = true ↔
      (o = .timeout ∨ ∃ ok body, o = .response ok body ∧
        (ok = false ∨ body.length < 50 ∨
          (strIncludes body calMarker = false ∧
           strIncludes body evMarker = false)))) ∧
    (∀ body, fetchCalendarWithFallback outcomes = .ok body ↔
      firstSuccess outcomes = some body) ∧
    (∀ e, fetchCalendarWithFallback outcomes = .error e →
      firstSuccess outcomes = none ∧ e = lastAttemptError none outcomes ∧
      e.isSome = true) := by
  refine ⟨?_, ?_, ?_⟩
  · intro o
    cases o with
    | timeout => simp [attemptFails, attemptStrategy]
    | response ok body =>
      by_cases hok : ok
      · subst hok
        by_cases hlen : body.length < 50
        · simp [attemptFails, attemptStrategy, hlen]
        · by_cases hcal : strIncludes body calMarker
          · simp [attemptFails, attemptStrategy, hlen, hcal]
          · by_cases hev : strIncludes body evMarker
            · simp [attemptFails, attemptStrategy, hlen, hcal, hev]
            · simp [attemptFails, attemptStrategy, hlen, hcal, hev]
      · simp only [Bool.not_eq_true] at hok
        subst hok
        simp [attemptFails, attemptStrategy]
  · intro body
    rw [fetchCalendarWithFallback, fetchLoop_eq]
    cases h : firstSuccess outcomes <;> simp
  · intro e he
    rw [fetchCalendarWithFallback, fetchLoop_eq] at he
    cases h : firstSuccess outcomes with
    | some b =>
      rw [h] at he
      cases he
    | none =>
      rw [h] at he
      cases he
      exact ⟨rfl, rfl, lastAttemptError_isSome outcomes none (Or.inr hne) h⟩

theorem fetch_fallback_first_success_last_error_witness :
    ([FetchOutcome.timeout, FetchOutcome.response false []] ≠ []) ∧
    (∀ e, fetchCalendarWithFallback [FetchOutcome.timeout, FetchOutcome.response false []] =
        .error e →
      e = lastAttemptError none [FetchOutcome.timeout, FetchOutcome.response false []] ∧
      e.isSome = true) :=
  ⟨by decide,
    fun e he =>
      ⟨((fetch_fallback_first_success_last_error
          [FetchOutcome.timeout, FetchOutcome.response false []]
          (by decide)).2.2 e he).2.1,
        ((fetch_fallback_first_success_last_error
          [FetchOutcome.timeout, FetchOutcome.response false []]
          (by decide)).2.2 e he).2.2⟩⟩

/-- C10: when the `limit` query parameter is absent, does not parse as
an integer, or parses to `0`, the resolved limit is the default 100 and
the pipeline output is the filtered, sorted list truncated to its first
100 elements — at most 100 events, and non-empty whenever the filtered
list is non-empty. -/
theorem default_limit_cap (tz : Int) (q : Query) (events : List CalEvent)
    (h : q.limit.bind jsParseIntAuto = none ∨ q.limit.bind jsParseIntAuto = some 0) :
    resolveLimit q = 100 ∧
    applyPipeline tz q events =
      ((sortByStart (startKey tz) (keywordFiltered q events)).take 100).map (formatEvent tz) ∧
    (applyPipeline tz q events).length ≤ 100 ∧
    (keywordFiltered q events ≠ [] → applyPipeline tz q events ≠ []) := by
  have h100 : resolveLimit q = 100 := by
    rcases h with h | h <;> simp [resolveLimit, h]
  have heq : applyPipeline tz q events =
      ((sortByStart (startKey tz) (keywordFiltered q events)).take 100).map (formatEvent tz) := by
    simp only [applyPipeline, h100]
    by_cases hbig :
        ((sortByStart (startKey tz) (keywordFiltered q events)).length : Int) > (100 : Int)
    · rw [if_pos hbig]
      simp [jsSliceTo]
    · rw [if_neg hbig]
      have hle : (sortByStart (startKey tz) (keywordFiltered q events)).length ≤ 100 := by
        omega
      rw [List.take_of_length_le hle]
  refine ⟨h100, heq, ?_, ?_⟩
  · rw [heq]
    simp only [List.length_map]
    calc ((sortByStart (startKey tz) (keywordFiltered q events)).take 100).length
        ≤ 100 := by simp [List.length_take]
      _ = 100 := rfl
  · intro hnenil
    rw [heq]
    intro hnil
    rcases List.map_eq_nil_iff.mp hnil with htake
    rcases List.take_eq_nil_iff.mp htake with h0 | hsortnil
    · cases h0
    · have : (sortByStart (startKey tz) (keywordFiltered q events)).length = 0 := by
        rw [hsortnil]
        rfl
      rw [length_sortByStart] at this
      exact hnenil (List.length_eq_zero.mp this)

theorem default_limit_cap_witness :
    ((Query.limit ⟨false, none, some ("abc".toList)⟩).bind jsParseIntAuto = none ∨
      (Query.limit ⟨false, none, some ("abc".toList)⟩).bind jsParseIntAuto = some 0) ∧
    resolveLimit ⟨false, none, some ("abc".toList)⟩ = 100 := by
  refine ⟨Or.inl (by decide), ?_⟩
  exact (default_limit_cap 0 ⟨false, none, some ("abc".toList)⟩ [] (Or.inl (by decide))).1

/-! ## Scanning lemmas for `parseICSDate` on `TZID=` lines -/

theorem findSubstrIdxAux_char_append (c : Char) (l r : Str) (i : Nat) (h : c ∉ l) :
    findSubstrIdxAux [c] (l ++ c :: r) i = some (i + l.length) := by
  induction l generalizing i with
  | nil =>
    simp only [List.nil_append, findSubstrIdxAux]
    rw [if_pos]
    · simp
    · simp [strStartsWith]
  | cons a l2 ih =>
    simp only [List.mem_cons, not_or] at h
    obtain ⟨h1, h2⟩ := h
    simp only [List.cons_append, findSubstrIdxAux, List.append_eq]
    rw [if_neg]
    · rw [ih (i + 1) h2]
      simp only [Option.some.injEq, List.length_cons]
      omega
    · simp only [strStartsWith, List.length_cons, List.length_nil, List.take_succ_cons,
        List.take_zero, decide_eq_true_eq, List.cons.injEq, and_true]
      exact fun hh => h1 (hh ▸ rfl)

theorem findSubstrIdx_char_append (c : Char) (l r : Str) (h : c ∉ l) :
    findSubstrIdx (l ++ c :: r) [c] = some l.length := by
  simpa [findSubstrIdx] using findSubstrIdxAux_char_append c l r 0 h

theorem mem_of_strStartsWith (s pat : Str) (h : strStartsWith s pat = true)
    (c : Char) (hc : c ∈ pat) : c ∈ s := by
  unfold strStartsWith at h
  have heq : s.take pat.length = pat := of_decide_eq_true h
  exact List.mem_of_mem_take (heq ▸ hc)

theorem findSubstrIdxAux_le_of_found (pat s : Str) (i j : Nat)
    (h : strStartsWith (s.drop j) pat = true) :
    ∃ t, findSubstrIdxAux pat s i = some t ∧ t ≤ i + j := by
  induction s generalizing i j with
  | nil =>
    rw [List.drop_nil] at h
    unfold strStartsWith at h
    have hpat : pat = [] := by simpa using (of_decide_eq_true h).symm
    refine ⟨i, ?_, by omega⟩
    simp [findSubstrIdxAux, hpat]
  | cons a rest ih =>
    by_cases hsw : strStartsWith (a :: rest) pat = true
    · exact ⟨i, by simp [findSubstrIdxAux, hsw], by omega⟩
    · cases j with
      | zero =>
        rw [List.drop_zero] at h
        exact absurd h hsw
      | succ j2 =>
        rw [List.drop_succ_cons] at h
        obtain ⟨t, ht, hle⟩ := ih (i + 1) j2 h
        refine ⟨t, ?_, by omega⟩
        simp [findSubstrIdxAux, hsw, ht]

/-- A `DTSTART` line carrying a `TZID=` parameter with zone name `z`. -/
def tzidLineOf (z v : Str) : Str := ("DTSTART;TZID=".toList) ++ z ++ (':' :: v)

/-- On a `TZID=` line with a colon-free zone name, `parseICSDate`
reduces to the zone-independent value interpretation: the zone name is
never consulted. -/
theorem parseICSDate_tzid_line (z v : Str) (hz : ':' ∉ z) :
    parseICSDate (tzidLineOf z v) = parseICSDateValue v (strEndsWith v ['Z']) := by
  have hassoc : tzidLineOf z v = (("DTSTART;TZID=".toList) ++ z) ++ (':' :: v) := by
    simp [tzidLineOf]
  have hmem : ':' ∉ ("DTSTART;TZID=".toList) ++ z := by
    simp only [List.mem_append, not_or]
    exact ⟨by decide, hz⟩
  have hp13 : (("DTSTART;TZID=".toList : Str)).length = 13 := rfl
  have hlen : (("DTSTART;TZID=".toList) ++ z).length = 13 + z.length := by
    rw [List.length_append, hp13]
  have hcolon : findSubstrIdx (tzidLineOf z v) [':'] = some (13 + z.length) := by
    rw [hassoc, findSubstrIdx_char_append ':' _ v hmem, hlen]
  have hocc : strStartsWith ((tzidLineOf z v).drop 8) tzidPat = true := by
    have hdrop : (tzidLineOf z v).drop 8 = 'T' :: 'Z' :: 'I' :: 'D' :: '=' :: (z ++ ':' :: v) := by
      simp [tzidLineOf]
    rw [hdrop]
    rfl
  obtain ⟨t, ht, hle⟩ := findSubstrIdxAux_le_of_found tzidPat (tzidLineOf z v) 0 8 hocc
  have ht' : findSubstrIdx (tzidLineOf z v) tzidPat = some t := ht
  have hfrom : findSubstrIdxFrom (tzidLineOf z v) [':'] t = some (13 + z.length) := by
    have htle : t ≤ (("DTSTART;TZID=".toList) ++ z).length := by
      rw [hlen]
      omega
    have hdropt : (tzidLineOf z v).drop t =
        ((("DTSTART;TZID=".toList) ++ z).drop t) ++ (':' :: v) := by
      rw [hassoc]
      exact List.drop_append_of_le_length htle
    have hmemt : ':' ∉ (("DTSTART;TZID=".toList) ++ z).drop t :=
      fun hmm => hmem (List.mem_of_mem_drop hmm)
    rw [hlen] at htle
    have hlendrop : ((("DTSTART;TZID=".toList) ++ z).drop t).length = 13 + z.length - t := by
      rw [List.length_drop, hlen]
    unfold findSubstrIdxFrom
    rw [hdropt, findSubstrIdx_char_append ':' _ v hmemt, hlendrop]
    show some (13 + z.length - t + t) = some (13 + z.length)
    exact congrArg some (by omega)
  have hvalue : (tzidLineOf z v).drop (13 + z.length + 1) = v := by
    rw [hassoc, List.append_cons _ ':' v]
    have h13 : 13 + z.length + 1 = ((("DTSTART;TZID=".toList) ++ z) ++ [':']).length := by
      simp only [List.length_append, hp13, List.length_cons, List.length_nil]
    rw [h13, List.drop_left]
  unfold parseICSDate
  simp only [hcolon, ht', hfrom, hvalue]

example : parseICSDate (tzidLineOf ("Europe/Rome".toList) ("20250601T120000".toList)) =
    some (.jslocal ⟨2025, 5, 1, 12, 0, 0⟩) := by decide

/-- C6 counterexample: the date parser does not special-case
`Europe/Rome` at all.  A `DTSTART;TZID=Europe/Rome:...` line is parsed
as naive local time — exactly the fallback the claim reserves for
"every other zone" — and yields the very same result as the same value
under `TZID=America/New_York`, so `Europe/Rome` is not recognized as a
special known zone by the parser. -/
theorem rome_tzid_parsed_naive_local :
    parseICSDate ("DTSTART;TZID=Europe/Rome:20250601T120000".toList) =
      some (.jslocal ⟨2025, 5, 1, 12, 0, 0⟩) ∧
    parseICSDate ("DTSTART;TZID=Europe/Rome:20250601T120000".toList) =
      parseICSDate ("DTSTART;TZID=America/New_York:20250601T120000".toList) := by
  constructor
  · decide
  · decide

/-- C6 amended: for every ICS property line carrying a `TZID=`
parameter, the zone name is irrelevant: any colon-free zone name
(including `Europe/Rome`, which is not special-cased) yields the
zone-independent interpretation of the literal value — naive local time
unless the value itself carries a trailing `Z`. -/
theorem tzid_zone_name_irrelevant (z v : Str) (hz : ':' ∉ z) :
    parseICSDate (tzidLineOf z v) = parseICSDateValue v (strEndsWith v ['Z']) ∧
    parseICSDate (tzidLineOf z v) =
      parseICSDate (tzidLineOf ("Europe/Rome".toList) v) := by
  have hrome : ':' ∉ (("Europe/Rome".toList) : Str) := by decide
  refine ⟨parseICSDate_tzid_line z v hz, ?_⟩
  rw [parseICSDate_tzid_line z v hz, parseICSDate_tzid_line _ v hrome]

theorem tzid_zone_name_irrelevant_witness :
    (':' ∉ (("America/New_York".toList) : Str)) ∧
    parseICSDate (tzidLineOf ("America/New_York".toList) ("20250601T120000".toList)) =
      parseICSDateValue ("20250601T120000".toList)
        (strEndsWith ("20250601T120000".toList) ['Z']) := by
  refine ⟨by decide, ?_⟩
  exact (tzid_zone_name_irrelevant ("America/New_York".toList)
    ("20250601T120000".toList) (by decide)).1

/-- C8 counterexample: a `DTSTART` line whose 8-character value defeats
numeric extraction (`parseInt` yields `NaN`, it never throws) makes
`parseICSDate` return an Invalid-Date value — an "other value", not the
null/no-date result the claim asserts. -/
theorem bad_numeric_value_invalid_not_null :
    parseICSDate ("DTSTART:XYXYXYXY".toList) = some JSDate.invalid ∧
    some JSDate.invalid ≠ (none : Option JSDate) := by
  exact ⟨by decide, by decide⟩

/-- C8 amended: a value part shorter than the minimum viable length
yields `null`; a date-time value whose cleaned form is shorter than 15
yields `null`; a failed numeric extraction yields an Invalid-Date value
rather than `null` (never an exception); and in every such case the
caller leaves the event's date fields unchanged (the invalid date fails
the year-plausibility guard) and keeps processing the event. -/
theorem short_or_invalid_value_dropped (tz : Int) (v line : Str) (isUTC : Bool)
    (pe : PartialEvent)
    (hshort : v.length < 8)
    (hparse : parseICSDate line = none ∨ parseICSDate line = some JSDate.invalid)
    (hsum : strStartsWith line ("SUMMARY:".toList) = false) :
    parseICSDateValue v isUTC = none ∧
    (∀ w : Str, ∀ u : Bool, (removeFirstChar 'Z' w).length < 15 → w.contains 'T' = true →
      parseICSDateValue w u = none) ∧
    yearPlausible tz JSDate.invalid = false ∧
    propStep tz pe line = pe := by
  have hyp : yearPlausible tz JSDate.invalid = false := rfl
  refine ⟨?_, ?_, hyp, ?_⟩
  · unfold parseICSDateValue
    rw [if_pos hshort]
  · intro w u h15 hT
    have hmem : 'T' ∈ w := by simpa [List.contains] using hT
    unfold parseICSDateValue
    by_cases h8 : w.length < 8
    · rw [if_pos h8]
    · rw [if_neg h8]
      simp [hmem, h15]
  · have hsum2 : strStartsWith line ('S' :: 'U' :: 'M' :: 'M' :: 'A' :: 'R' :: 'Y' :: ':' :: []) = false := hsum
    rcases hparse with hp | hp <;>
      by_cases hds : strStartsWith line ('D' :: 'T' :: 'S' :: 'T' :: 'A' :: 'R' :: 'T' :: []) = true <;>
      by_cases hde : strStartsWith line ('D' :: 'T' :: 'E' :: 'N' :: 'D' :: []) = true <;>
      simp [propStep, hsum2, hds, hde, hp, hyp]

theorem short_or_invalid_value_dropped_witness :
    (("XYZ".toList : Str).length < 8) ∧
    (parseICSDate ("DTSTART:XYXYXYXY".toList) = none ∨
      parseICSDate ("DTSTART:XYXYXYXY".toList) = some JSDate.invalid) ∧
    strStartsWith ("DTSTART:XYXYXYXY".toList) ("SUMMARY:".toList) = false ∧
    parseICSDateValue ("XYZ".toList) false = none ∧
    propStep 0 {} ("DTSTART:XYXYXYXY".toList) = {} := by
  refine ⟨by decide, Or.inr (by decide), by decide, ?_, ?_⟩
  · exact (short_or_invalid_value_dropped 0 ("XYZ".toList) ("DTSTART:XYXYXYXY".toList)
      false {} (by decide) (Or.inr (by decide)) (by decide)).1
  · exact (short_or_invalid_value_dropped 0 ("XYZ".toList) ("DTSTART:XYXYXYXY".toList)
      false {} (by decide) (Or.inr (by decide)) (by decide)).2.2.2

/-! ## Digit-token lemmas for the 8-digit date-only form -/

/-- The decimal digit character for `n % 10`. -/
def dC (n : Nat) : Char := Char.ofNat (48 + n % 10)

/-- The 4-digit zero-padded rendering of `n ≤ 9999`. -/
def pad4 (n : Nat) : Str := [dC (n / 1000), dC (n / 100), dC (n / 10), dC n]

/-- The 2-digit zero-padded rendering of `n ≤ 99`. -/
def pad2 (n : Nat) : Str := [dC (n / 10), dC n]

/-- The 8-digit `YYYYMMDD` token. -/
def dateToken (y mo d : Nat) : Str := pad4 y ++ pad2 mo ++ pad2 d

/-- A `DTSTART:` line carrying an 8-digit date-only value. -/
def dtstartDateLine (y mo d : Nat) : Str := ("DTSTART:".toList) ++ dateToken y mo d

theorem dC_props (n : Nat) :
    (dC n).toNat = 48 + n % 10 ∧ (dC n).isDigit = true ∧ isWsChar (dC n) = false ∧
    dC n ≠ 'T' ∧ dC n ≠ ':' ∧ dC n ≠ 'Z' ∧ dC n ≠ '-' ∧ dC n ≠ '+' := by
  have h : n % 10 < 10 := Nat.mod_lt _ (by norm_num)
  have key : ∀ k, k < 10 →
      (Char.ofNat (48 + k)).toNat = 48 + k ∧ (Char.ofNat (48 + k)).isDigit = true ∧
      isWsChar (Char.ofNat (48 + k)) = false ∧ Char.ofNat (48 + k) ≠ 'T' ∧
      Char.ofNat (48 + k) ≠ ':' ∧ Char.ofNat (48 + k) ≠ 'Z' ∧
      Char.ofNat (48 + k) ≠ '-' ∧ Char.ofNat (48 + k) ≠ '+' := by decide
  exact key (n % 10) h

theorem takeWhile_eq_self_of_all (p : Char → Bool) (l : Str) (h : ∀ c ∈ l, p c = true) :
    l.takeWhile p = l := by
  induction l with
  | nil => rfl
  | cons c rest ih =>
    rw [List.takeWhile_cons, if_pos (h c (List.mem_cons_self c rest))]
    rw [ih (fun x hx => h x (List.mem_cons_of_mem c hx))]

theorem jsParseInt_of_digits (l : Str) (hne : l ≠ [])
    (h : ∀ c ∈ l, c.isDigit = true ∧ isWsChar c = false ∧ c ≠ '-' ∧ c ≠ '+') :
    jsParseInt l = some ((digitsVal l : Nat) : Int) := by
  cases l with
  | nil => exact absurd rfl hne
  | cons c rest =>
    obtain ⟨hdg, hws, hminus, hplus⟩ := h c (List.mem_cons_self c rest)
    have hdrop : (c :: rest).dropWhile isWsChar = c :: rest := by
      rw [List.dropWhile_cons, if_neg]
      simp [hws]
    have htake : (c :: rest).takeWhile Char.isDigit = c :: rest :=
      takeWhile_eq_self_of_all _ _ (fun x hx => (h x hx).1)
    unfold jsParseInt
    simp only [hdrop]
    rw [if_neg hminus, if_neg hplus]
    simp only [parseDigits, htake, if_neg hne]
    rfl

theorem digitsVal_pad4 (y : Nat) (hy : y ≤ 9999) : digitsVal (pad4 y) = y := by
  have h1 := (dC_props (y / 1000)).1
  have h2 := (dC_props (y / 100)).1
  have h3 := (dC_props (y / 10)).1
  have h4 := (dC_props y).1
  simp only [digitsVal, pad4, List.foldl_cons, List.foldl_nil, h1, h2, h3, h4]
  omega

theorem digitsVal_pad2 (n : Nat) (hn : n ≤ 99) : digitsVal (pad2 n) = n := by
  have h1 := (dC_props (n / 10)).1
  have h2 := (dC_props n).1
  simp only [digitsVal, pad2, List.foldl_cons, List.foldl_nil, h1, h2]
  omega

theorem mem_dateToken (y mo d : Nat) (c : Char) (hc : c ∈ dateToken y mo d) :
    ∃ n, c = dC n := by
  simp only [dateToken, pad4, pad2, List.mem_append, List.mem_cons,
    List.not_mem_nil, or_false] at hc
  rcases hc with ((h | h | h | h) | h | h) | h | h <;> exact ⟨_, h⟩

theorem findSubstrIdxAux_none_of_not_mem (pat s : Str) (i : Nat) (c : Char)
    (hc : c ∈ pat) (hs : c ∉ s) : findSubstrIdxAux pat s i = none := by
  induction s generalizing i with
  | nil =>
    unfold findSubstrIdxAux
    rw [if_neg]
    intro hpat
    rw [hpat] at hc
    cases hc
  | cons a rest ih =>
    simp only [List.mem_cons, not_or] at hs
    obtain ⟨hs1, hs2⟩ := hs
    have hnot : ¬ (strStartsWith (a :: rest) pat = true) := by
      intro hss
      rcases List.mem_cons.mp (mem_of_strStartsWith _ _ hss c hc) with he | hm
      · exact hs1 he
      · exact hs2 hm
    unfold findSubstrIdxAux
    rw [if_neg hnot, ih (i + 1) hs2]

theorem jsParseInt_pad4 (y : Nat) (hy : y ≤ 9999) : jsParseInt (pad4 y) = some (y : Int) := by
  have hall : ∀ c ∈ pad4 y, c.isDigit = true ∧ isWsChar c = false ∧ c ≠ '-' ∧ c ≠ '+' := by
    intro c hc
    simp only [pad4, List.mem_cons, List.not_mem_nil, or_false] at hc
    rcases hc with rfl | rfl | rfl | rfl <;>
      · obtain ⟨-, h2, h3, -, -, -, h7, h8⟩ := dC_props _
        exact ⟨h2, h3, h7, h8⟩
  rw [jsParseInt_of_digits (pad4 y) (by simp [pad4]) hall, digitsVal_pad4 y hy]

theorem jsParseInt_pad2 (n : Nat) (hn : n ≤ 99) : jsParseInt (pad2 n) = some (n : Int) := by
  have hall : ∀ c ∈ pad2 n, c.isDigit = true ∧ isWsChar c = false ∧ c ≠ '-' ∧ c ≠ '+' := by
    intro c hc
    simp only [pad2, List.mem_cons, List.not_mem_nil, or_false] at hc
    rcases hc with rfl | rfl <;>
      · obtain ⟨-, h2, h3, -, -, -, h7, h8⟩ := dC_props _
        exact ⟨h2, h3, h7, h8⟩
  rw [jsParseInt_of_digits (pad2 n) (by simp [pad2]) hall, digitsVal_pad2 n hn]

theorem parseICSDate_dateToken (y mo d : Nat) (hy4 : y ≤ 9999) (hmo : mo ≤ 99) (hd : d ≤ 99) :
    parseICSDate (dtstartDateLine y mo d) =
      some (.jslocal ⟨(y : Int), (mo : Int) - 1, (d : Int), 0, 0, 0⟩) := by
  have hline : dtstartDateLine y mo d = ("DTSTART".toList) ++ ':' :: dateToken y mo d := rfl
  have hcolon : findSubstrIdx (dtstartDateLine y mo d) [':'] = some 7 := by
    rw [hline]
    simpa using findSubstrIdx_char_append ':' ("DTSTART".toList) (dateToken y mo d) (by decide)
  have htzid : findSubstrIdx (dtstartDateLine y mo d) tzidPat = none := by
    apply findSubstrIdxAux_none_of_not_mem tzidPat _ 0 'Z' (by decide)
    rw [hline]
    simp only [List.mem_append, List.mem_cons, not_or]
    refine ⟨by decide, by decide, ?_⟩
    intro hc
    obtain ⟨n, hn⟩ := mem_dateToken y mo d 'Z' hc
    exact (dC_props n).2.2.2.2.2.1 hn.symm
  have hdrop : (dtstartDateLine y mo d).drop (7 + 1) = dateToken y mo d := rfl
  unfold parseICSDate
  simp only [hcolon, htzid, hdrop]
  have hlen8 : (dateToken y mo d).length = 8 := by simp [dateToken, pad4, pad2]
  have hT : 'T' ∉ dateToken y mo d := by
    intro hc
    obtain ⟨n, hn⟩ := mem_dateToken y mo d 'T' hc
    exact (dC_props n).2.2.2.1 hn.symm
  have hcont : (dateToken y mo d).contains 'T' = false := by
    simp [List.contains, hT]
  unfold parseICSDateValue
  rw [if_neg (by rw [hlen8]; norm_num),
    if_neg (by simp only [List.contains, List.elem_eq_mem, decide_eq_true_eq]; exact hT)]
  have hs1 : strSubstr (dateToken y mo d) 0 4 = pad4 y := by
    simp [dateToken, strSubstr, pad4, pad2]
  have hs2 : strSubstr (dateToken y mo d) 4 2 = pad2 mo := by
    simp [dateToken, strSubstr, pad4, pad2]
  have hs3 : strSubstr (dateToken y mo d) 6 2 = pad2 d := by
    simp [dateToken, strSubstr, pad4, pad2]
  simp only [hs1, hs2, hs3, jsParseInt_pad4 y hy4, jsParseInt_pad2 mo hmo,
    jsParseInt_pad2 d hd]
  rfl

theorem makeFullYear_of_ge (y : Int) (hy : 100 ≤ y) : makeFullYear y = y := by
  unfold makeFullYear
  rw [if_neg]
  rintro ⟨-, h⟩
  omega

theorem daysFromCivil_day (y m d : Int) :
    daysFromCivil y m d = daysFromCivil y m 1 + (d - 1) := by
  simp only [daysFromCivil]
  ring

theorem epochOfFields_dateOnly (y mo d : Nat) (hy : 100 ≤ y) (hmo1 : 1 ≤ mo) (hmo2 : mo ≤ 12) :
    epochOfFields ⟨(y : Int), (mo : Int) - 1, (d : Int), 0, 0, 0⟩ =
      daysFromCivil (y : Int) (mo : Int) (d : Int) * 86400000 := by
  have hmf : makeFullYear (y : Int) = (y : Int) := makeFullYear_of_ge _ (by exact_mod_cast hy)
  have hyy : ((y : Int) * 12 + ((mo : Int) - 1)).fdiv 12 = (y : Int) := by
    rw [Int.fdiv_eq_ediv _ (by norm_num)]
    omega
  have hmm : ((y : Int) * 12 + ((mo : Int) - 1)).emod 12 + 1 = (mo : Int) := by
    have h2 : ((y : Int) * 12 + ((mo : Int) - 1)) % 12 + 1 = (mo : Int) := by omega
    exact h2
  simp only [epochOfFields, hmf, hyy, hmm]
  rw [daysFromCivil_day (y : Int) (mo : Int) (d : Int)]
  ring

/-- C7 counterexample: the valid 8-digit date-only token `00500101`
does not yield midnight of calendar day 0050-01-01.  The JavaScript
`Date` constructor maps year arguments 0–99 to 1900+, so the parsed
instant lies in 1950 (`getFullYear` is 1950, and the instant differs
from midnight of civil day 0050-01-01). -/
theorem date_only_two_digit_year_shift :
    parseICSDate (dtstartDateLine 50 1 1) = some (.jslocal ⟨50, 0, 1, 0, 0, 0⟩) ∧
    jsGetFullYear 0 (.jslocal ⟨50, 0, 1, 0, 0, 0⟩) = some 1950 ∧
    jsGetTime 0 (.jslocal ⟨50, 0, 1, 0, 0, 0⟩) ≠ some (daysFromCivil 50 1 1 * 86400000) := by
  refine ⟨by decide, by decide, by decide⟩

/-- C7 amended: for every valid 8-digit date-only token whose year
field is at least 100, the parser yields midnight local time of that
calendar day (the local-clock instant is exactly the civil day number
times a day of milliseconds, with zero hours and minutes); tokens with
year 0–99 are shifted to 1900+ by JavaScript `Date` semantics.  For
every formatted event, `isAllDay` is true exactly when the end is
absent or both start and end have zero local hours and minutes. -/
theorem date_only_midnight_and_allday (tz : Int) (y mo d : Nat)
    (hy : 100 ≤ y) (hy4 : y ≤ 9999) (hmo1 : 1 ≤ mo) (hmo2 : mo ≤ 12)
    (hd1 : 1 ≤ d) (hd2 : d ≤ 31) :
    parseICSDate (dtstartDateLine y mo d) =
      some (.jslocal ⟨(y : Int), (mo : Int) - 1, (d : Int), 0, 0, 0⟩) ∧
    jsLocalEpoch tz (.jslocal ⟨(y : Int), (mo : Int) - 1, (d : Int), 0, 0, 0⟩) =
      some (daysFromCivil (y : Int) (mo : Int) (d : Int) * 86400000) ∧
    jsGetHours tz (.jslocal ⟨(y : Int), (mo : Int) - 1, (d : Int), 0, 0, 0⟩) = some 0 ∧
    jsGetMinutes tz (.jslocal ⟨(y : Int), (mo : Int) - 1, (d : Int), 0, 0, 0⟩) = some 0 ∧
    (∀ e : CalEvent, (formatEvent tz e).isAllDay = true ↔
      (e.dtend = none ∨ ∃ ed, e.dtend = some ed ∧
        jsGetHours tz e.dtstart = some 0 ∧ jsGetMinutes tz e.dtstart = some 0 ∧
        jsGetHours tz ed = some 0 ∧ jsGetMinutes tz ed = some 0)) := by
  have hepoch := epochOfFields_dateOnly y mo d hy hmo1 hmo2
  have hlocal : jsLocalEpoch tz (.jslocal ⟨(y : Int), (mo : Int) - 1, (d : Int), 0, 0, 0⟩) =
      some (daysFromCivil (y : Int) (mo : Int) (d : Int) * 86400000) := by
    simp only [jsLocalEpoch, jsGetTime, hepoch, Option.map_some']
    congr 1
    ring
  refine ⟨parseICSDate_dateToken y mo d hy4 (by omega) (by omega), hlocal, ?_, ?_, ?_⟩
  · simp only [jsGetHours, hlocal, Option.map_some']
    have h1 : daysFromCivil (y : Int) (mo : Int) (d : Int) * 86400000 =
        (daysFromCivil (y : Int) (mo : Int) (d : Int) * 24) * 3600000 := by ring
    rw [h1, Int.mul_fdiv_cancel _ (by norm_num)]
    have h2 : (daysFromCivil (y : Int) (mo : Int) (d : Int) * 24) % 24 = 0 := by omega
    exact congrArg some h2
  · simp only [jsGetMinutes, hlocal, Option.map_some']
    have h1 : daysFromCivil (y : Int) (mo : Int) (d : Int) * 86400000 =
        (daysFromCivil (y : Int) (mo : Int) (d : Int) * 24 * 60) * 60000 := by ring
    rw [h1, Int.mul_fdiv_cancel _ (by norm_num)]
    have h2 : (daysFromCivil (y : Int) (mo : Int) (d : Int) * 24 * 60) % 60 = 0 := by omega
    exact congrArg some h2
  · intro e
    cases he : e.dtend with
    | none => simp [formatEvent, he]
    | some ed => simp [formatEvent, he, Bool.and_eq_true, beq_iff_eq, and_assoc]

theorem date_only_midnight_and_allday_witness :
    ((100 : Nat) ≤ 2099 ∧ (2099 : Nat) ≤ 9999 ∧ (1 : Nat) ≤ 6 ∧ (6 : Nat) ≤ 12 ∧
      (1 : Nat) ≤ 15 ∧ (15 : Nat) ≤ 31) ∧
    parseICSDate (dtstartDateLine 2099 6 15) =
      some (.jslocal ⟨2099, 5, 15, 0, 0, 0⟩) ∧
    jsGetHours 0 (.jslocal ⟨2099, 5, 15, 0, 0, 0⟩) = some 0 := by
  refine ⟨by decide, ?_, ?_⟩
  · have h := (date_only_midnight_and_allday 0 2099 6 15 (by decide) (by decide)
      (by decide) (by decide) (by decide) (by decide)).1
    simpa using h
  · have h := (date_only_midnight_and_allday 0 2099 6 15 (by decide) (by decide)
      (by decide) (by decide) (by decide) (by decide)).2.2.1
    simpa using h

/-! ## Block-level characterization of the feed parser -/

/-- Join lines with `\n` separators (how a test document is
assembled). -/
def joinLines : List Str → Str
  | [] => []
  | [l] => l
  | l :: ls => l ++ '\n' :: joinLines ls

/-- One `VEVENT` block: the property lines between `BEGIN:VEVENT` and
`END:VEVENT`. -/
structure VBlock where
  props : List Str
deriving DecidableEq, Repr

/-- The raw lines of one block. -/
def blockLines (b : VBlock) : List Str :=
  ("BEGIN:VEVENT".toList) :: (b.props ++ [("END:VEVENT".toList)])

/-- An ICS document consisting of a sequence of `VEVENT` blocks. -/
def docOf (blocks : List VBlock) : Str :=
  joinLines ((blocks.map blockLines).flatten)

/-- The event (if any) a block commits: fold the property lines through
the builder, then apply the commit rule. -/
def eventOfBlock (tz : Int) (today : JSDate) (b : VBlock) : List CalEvent :=
  commitEvent tz today (b.props.foldl (propStep tz) {})

/-- A property line that interacts cleanly with line splitting and
trimming: it is trim-invariant, contains no line separators, and is not
a block delimiter. -/
def goodProp (p : Str) : Prop :=
  jsTrim p = p ∧ '\n' ∉ p ∧ '\r' ∉ p ∧
  p ≠ ("BEGIN:VEVENT".toList) ∧ p ≠ ("END:VEVENT".toList)

instance goodPropDecidable (p : Str) : Decidable (goodProp p) := by
  unfold goodProp
  infer_instance

theorem splitLinesAux_no_sep (l : Str) (acc : Str)
    (h1 : '\n' ∉ l) (h2 : '\r' ∉ l) :
    splitLinesAux l acc = [acc.reverse ++ l] := by
  induction l generalizing acc with
  | nil => simp [splitLinesAux]
  | cons c rest ih =>
    simp only [List.mem_cons, not_or] at h1 h2
    have hcn : ¬ (c = '\n') := fun hh => h1.1 hh.symm
    have hcr2 : ¬ (c = '\r') := fun hh => h2.1 hh.symm
    cases rest with
    | nil =>
      rw [splitLinesAux, if_neg hcn]
      simp
    | cons c2 rest2 =>
      rw [splitLinesAux, if_neg hcn, if_neg (by
        simp only [Bool.and_eq_true, decide_eq_true_eq]
        rintro ⟨hh, -⟩
        exact hcr2 hh)]
      rw [ih (c :: acc) h1.2 h2.2]
      simp

theorem splitLinesAux_append_sep (l : Str) (acc : Str) (rest : Str)
    (h1 : '\n' ∉ l) (h2 : '\r' ∉ l) :
    splitLinesAux (l ++ '\n' :: rest) acc = (acc.reverse ++ l) :: splitLinesAux rest [] := by
  induction l generalizing acc with
  | nil =>
    cases rest with
    | nil => simp [splitLinesAux]
    | cons r rs => simp [splitLinesAux]
  | cons c l2 ih =>
    simp only [List.mem_cons, not_or] at h1 h2
    have hcn : ¬ (c = '\n') := fun hh => h1.1 hh.symm
    have hcr2 : ¬ (c = '\r') := fun hh => h2.1 hh.symm
    have hcons : (c :: l2) ++ '\n' :: rest = c :: (l2 ++ '\n' :: rest) := rfl
    rw [hcons]
    have hl2ne : l2 ++ '\n' :: rest ≠ [] := by
      intro hh
      cases l2 <;> simp at hh
    obtain ⟨c2, rest2, hsplit⟩ : ∃ c2 rest2, l2 ++ '\n' :: rest = c2 :: rest2 := by
      cases hl2 : l2 ++ '\n' :: rest with
      | nil => exact absurd hl2 hl2ne
      | cons a b => exact ⟨a, b, rfl⟩
    rw [hsplit, splitLinesAux, if_neg hcn, if_neg (by
      simp only [Bool.and_eq_true, decide_eq_true_eq]
      rintro ⟨hh, -⟩
      exact hcr2 hh)]
    rw [← hsplit, ih (c :: acc) h1.2 h2.2]
    simp

theorem splitLines_joinLines (ls : List Str) (hne : ls ≠ [])
    (h : ∀ l ∈ ls, '\n' ∉ l ∧ '\r' ∉ l) :
    splitLines (joinLines ls) = ls := by
  induction ls with
  | nil => exact absurd rfl hne
  | cons l rest ih =>
    obtain ⟨h1, h2⟩ := h l (List.mem_cons_self l rest)
    cases rest with
    | nil =>
      show splitLinesAux (joinLines [l]) [] = [l]
      rw [show joinLines [l] = l from rfl]
      rw [splitLinesAux_no_sep l [] h1 h2]
      simp
    | cons r rs =>
      show splitLinesAux (joinLines (l :: r :: rs)) [] = l :: r :: rs
      rw [show joinLines (l :: r :: rs) = l ++ '\n' :: joinLines (r :: rs) from rfl]
      rw [splitLinesAux_append_sep l [] (joinLines (r :: rs)) h1 h2]
      have := ih (List.cons_ne_nil r rs) (fun x hx => h x (List.mem_cons_of_mem l hx))
      rw [show splitLines (joinLines (r :: rs)) = splitLinesAux (joinLines (r :: rs)) [] from rfl] at this
      rw [this]
      simp

theorem processLine_prop (tz : Int) (today : JSDate) (pe : PartialEvent)
    (evts : List CalEvent) (p : Str)
    (hb : p ≠ ("BEGIN:VEVENT".toList)) (he : p ≠ ("END:VEVENT".toList)) :
    processLine tz today ⟨some pe, evts⟩ p = ⟨some (propStep tz pe p), evts⟩ := by
  unfold processLine
  rw [if_neg hb, if_neg he]

theorem foldl_processLine_props (tz : Int) (today : JSDate) (props : List Str)
    (pe : PartialEvent) (evts : List CalEvent) (rest : List Str)
    (h : ∀ p ∈ props, p ≠ ("BEGIN:VEVENT".toList) ∧ p ≠ ("END:VEVENT".toList)) :
    List.foldl (processLine tz today) ⟨some pe, evts⟩ (props ++ rest) =
      List.foldl (processLine tz today) ⟨some (props.foldl (propStep tz) pe), evts⟩ rest := by
  induction props generalizing pe with
  | nil => rfl
  | cons p ps ih =>
    obtain ⟨hb, he⟩ := h p (List.mem_cons_self p ps)
    rw [List.cons_append, List.foldl_cons,
      processLine_prop tz today pe evts p hb he,
      ih (propStep tz pe p) (fun x hx => h x (List.mem_cons_of_mem p hx)),
      List.foldl_cons]

theorem foldl_processLine_block (tz : Int) (today : JSDate) (b : VBlock)
    (evts : List CalEvent) (rest : List Str)
    (h : ∀ p ∈ b.props, p ≠ ("BEGIN:VEVENT".toList) ∧ p ≠ ("END:VEVENT".toList)) :
    List.foldl (processLine tz today) ⟨none, evts⟩ (blockLines b ++ rest) =
      List.foldl (processLine tz today) ⟨none, evts ++ eventOfBlock tz today b⟩ rest := by
  have hbegin : processLine tz today ⟨none, evts⟩ ("BEGIN:VEVENT".toList) =
      ⟨some {}, evts⟩ := by
    unfold processLine
    rw [if_pos rfl]
  have hend : ∀ pe, processLine tz today ⟨some pe, evts⟩ ("END:VEVENT".toList) =
      ⟨none, evts ++ commitEvent tz today pe⟩ := by
    intro pe
    unfold processLine
    rw [if_neg (by decide), if_pos rfl]
  rw [show blockLines b ++ rest =
    ("BEGIN:VEVENT".toList) :: (b.props ++ (("END:VEVENT".toList) :: rest)) by
      simp [blockLines]]
  rw [List.foldl_cons, hbegin, foldl_processLine_props tz today b.props {} evts _ h,
    List.foldl_cons, hend]
  rfl

theorem foldl_processLine_blocks (tz : Int) (today : JSDate) (blocks : List VBlock)
    (evts : List CalEvent)
    (h : ∀ b ∈ blocks, ∀ p ∈ b.props,
      p ≠ ("BEGIN:VEVENT".toList) ∧ p ≠ ("END:VEVENT".toList)) :
    List.foldl (processLine tz today) ⟨none, evts⟩ ((blocks.map blockLines).flatten) =
      ⟨none, evts ++ (blocks.map (eventOfBlock tz today)).flatten⟩ := by
  induction blocks generalizing evts with
  | nil => simp
  | cons b bs ih =>
    rw [List.map_cons, List.flatten_cons,
      foldl_processLine_block tz today b evts _ (h b (List.mem_cons_self b bs)),
      ih (evts ++ eventOfBlock tz today b) (fun x hx => h x (List.mem_cons_of_mem b hx))]
    simp


theorem mem_blockLines_cases (b : VBlock) (l : Str) (hl : l ∈ blockLines b) :
    l = ("BEGIN:VEVENT".toList) ∨ l ∈ b.props ∨ l = ("END:VEVENT".toList) := by
  unfold blockLines at hl
  rcases List.mem_cons.mp hl with rfl | h2
  · exact Or.inl rfl
  · rcases List.mem_append.mp h2 with hp | he
    · exact Or.inr (Or.inl hp)
    · exact Or.inr (Or.inr (List.mem_singleton.mp he))

theorem parseCalendarData_docOf (tz : Int) (today : JSDate) (blocks : List VBlock)
    (hne : blocks ≠ [])
    (hprops : ∀ b ∈ blocks, ∀ p ∈ b.props, goodProp p) :
    parseCalendarData tz today (docOf blocks) =
      (blocks.map (eventOfBlock tz today)).flatten := by
  have hlines : ∀ l ∈ (blocks.map blockLines).flatten, '\n' ∉ l ∧ '\r' ∉ l := by
    intro l hl
    rcases List.mem_flatten.mp hl with ⟨ls, hls, hlin⟩
    rcases List.mem_map.mp hls with ⟨b, hb, rfl⟩
    rcases mem_blockLines_cases b l hlin with rfl | hp | rfl
    · exact ⟨by decide, by decide⟩
    · obtain ⟨-, h2, h3, -, -⟩ := hprops b hb _ hp
      exact ⟨h2, h3⟩
    · exact ⟨by decide, by decide⟩
  have hlinesne : (blocks.map blockLines).flatten ≠ [] := by
    cases blocks with
    | nil => exact absurd rfl hne
    | cons b bs => simp [blockLines]
  have hsplit : splitLines (docOf blocks) = (blocks.map blockLines).flatten :=
    splitLines_joinLines _ hlinesne hlines
  have htrim : ((blocks.map blockLines).flatten).map jsTrim =
      (blocks.map blockLines).flatten := by
    have hcong : ∀ l ∈ (blocks.map blockLines).flatten, jsTrim l = id l := by
      intro l hl
      rcases List.mem_flatten.mp hl with ⟨ls, hls, hlin⟩
      rcases List.mem_map.mp hls with ⟨b, hb, rfl⟩
      rcases mem_blockLines_cases b l hlin with rfl | hp | rfl
      · decide
      · exact (hprops b hb _ hp).1
      · decide
    rw [List.map_congr_left hcong, List.map_id]
  have hdelim : ∀ b ∈ blocks, ∀ p ∈ b.props,
      p ≠ ("BEGIN:VEVENT".toList) ∧ p ≠ ("END:VEVENT".toList) := by
    intro b hb p hp
    obtain ⟨-, -, -, h4, h5⟩ := hprops b hb p hp
    exact ⟨h4, h5⟩
  unfold parseCalendarData
  rw [hsplit, htrim, foldl_processLine_blocks tz today blocks [] hdelim]
  simp

theorem eventOfBlock_single (tz : Int) (today : JSDate) (b : VBlock) (e : CalEvent)
    (h : eventOfBlock tz today b = [e]) :
    e.summary ≠ [] ∧ jsDateGE tz e.dtstart today = true := by
  unfold eventOfBlock commitEvent at h
  cases h1 : (List.foldl (propStep tz) {} b.props).summary with
  | none => rw [h1] at h; cases h
  | some s =>
    cases h2 : (List.foldl (propStep tz) {} b.props).dtstart with
    | none => rw [h1, h2] at h; cases h
    | some d =>
      rw [h1, h2] at h
      have h' : (if s ≠ [] ∧ jsDateGE tz d today = true then
          [CalEvent.mk s d (List.foldl (propStep tz) {} b.props).dtend]
        else []) = [e] := h
      by_cases hc : s ≠ [] ∧ jsDateGE tz d today = true
      · rw [if_pos hc] at h'
        injection h' with he _
        rw [← he]
        exact hc
      · rw [if_neg hc] at h'
        cases h'

theorem eventOfBlock_len (tz : Int) (today : JSDate) (b : VBlock) :
    (eventOfBlock tz today b).length ≤ 1 := by
  unfold eventOfBlock commitEvent
  cases (List.foldl (propStep tz) {} b.props).summary with
  | none => simp
  | some s =>
    cases (List.foldl (propStep tz) {} b.props).dtstart with
    | none => simp
    | some d =>
      show (if s ≠ [] ∧ jsDateGE tz d today = true then
          [CalEvent.mk s d (List.foldl (propStep tz) {} b.props).dtend]
        else []).length ≤ 1
      by_cases hc : s ≠ [] ∧ jsDateGE tz d today = true
      · rw [if_pos hc]
        simp
      · rw [if_neg hc]
        simp

/-- A property line carrying a truthy summary. -/
def hasNonemptySummary (p : Str) : Bool :=
  strStartsWith p ("SUMMARY:".toList) && decide (p.drop 8 ≠ [])

/-- A property line whose `DTSTART` value parses to a usable date. -/
def hasParsableStart (p : Str) : Bool :=
  strStartsWith p ("DTSTART".toList) &&
    match parseICSDate p with
    | some (.jslocal _) => true
    | some (.utc _) => true
    | _ => false

/-- The claim's notion of a well-formed block: a summary is present and
a start is parsable. -/
def wellFormedBlock (b : VBlock) : Bool :=
  (b.props.any hasNonemptySummary) && (b.props.any hasParsableStart)

/-- A well-formed block whose event lies in the past relative to the
parse day. -/
def pastBlock : VBlock :=
  ⟨[("SUMMARY:Old".toList), ("DTSTART:20240101".toList)]⟩

/-- C9 counterexample: a document consisting of one well-formed
`VEVENT` block (summary present, start parsable — N = 1, M = 0) yields
zero events, not exactly N = 1, because `parseCalendarData` also drops
events whose start precedes the parse-time day reference. -/
theorem past_wellformed_block_dropped :
    wellFormedBlock pastBlock = true ∧
    parseCalendarData 0 (.jslocal ⟨2025, 0, 1, 0, 0, 0⟩) (docOf [pastBlock]) = [] := by
  exact ⟨by decide, by decide⟩

/-- C9 amended: applied to a document of `VEVENT` blocks, the feed
parser yields exactly the events committed by the builder rules, in
document order, with no failure: each block contributes at most one
event, and it contributes one only if it has a truthy summary and an
accepted start that is on or after the parse-day reference — so
well-formed but past-dated blocks are dropped too, while malformed
blocks are silently skipped. -/
theorem feed_parser_blocks_characterization (tz : Int) (today : JSDate)
    (blocks : List VBlock) (hne : blocks ≠ [])
    (hprops : ∀ b ∈ blocks, ∀ p ∈ b.props, goodProp p) :
    parseCalendarData tz today (docOf blocks) =
      (blocks.map (eventOfBlock tz today)).flatten ∧
    (∀ b : VBlock, ∀ e : CalEvent, eventOfBlock tz today b = [e] →
      e.summary ≠ [] ∧ jsDateGE tz e.dtstart today = true) ∧
    (∀ b : VBlock, (eventOfBlock tz today b).length ≤ 1) :=
  ⟨parseCalendarData_docOf tz today blocks hne hprops,
    fun b e h => eventOfBlock_single tz today b e h,
    fun b => eventOfBlock_len tz today b⟩

/-- A well-formed, future-dated sample block. -/
def sampleBlock : VBlock :=
  ⟨[("SUMMARY:Math Exam".toList), ("DTSTART:20990615".toList)]⟩

theorem feed_parser_blocks_characterization_witness :
    ([sampleBlock] ≠ ([] : List VBlock)) ∧
    (∀ b ∈ [sampleBlock], ∀ p ∈ b.props, goodProp p) ∧
    parseCalendarData 0 (.jslocal ⟨2025, 0, 1, 0, 0, 0⟩) (docOf [sampleBlock]) =
      ([sampleBlock].map (eventOfBlock 0 (.jslocal ⟨2025, 0, 1, 0, 0, 0⟩))).flatten := by
  refine ⟨by decide, by decide, ?_⟩
  exact (feed_parser_blocks_characterization 0 (.jslocal ⟨2025, 0, 1, 0, 0, 0⟩)
    [sampleBlock] (by decide) (by decide)).1

/-! ## The date-window reference (`asOf`) and what the pipeline guarantees -/

/-- The start-of-day epoch instant at local offset `tz` for the request
time `now`: the `asOf` reference of a request. -/
def startOfDayEpoch (tz now : Int) : Int :=
  ((now + tz).fdiv 86400000) * 86400000 - tz

theorem commitEvent_ge (tz : Int) (today : JSDate) (pe : PartialEvent) (e : CalEvent)
    (h : e ∈ commitEvent tz today pe) : jsDateGE tz e.dtstart today = true := by
  unfold commitEvent at h
  cases h1 : pe.summary with
  | none => rw [h1] at h; cases h
  | some s =>
    cases h2 : pe.dtstart with
    | none => rw [h1, h2] at h; cases h
    | some d =>
      rw [h1, h2] at h
      have h' : e ∈ (if s ≠ [] ∧ jsDateGE tz d today = true then
          [CalEvent.mk s d pe.dtend] else []) := h
      by_cases hc : s ≠ [] ∧ jsDateGE tz d today = true
      · rw [if_pos hc] at h'
        rcases List.mem_singleton.mp h' with rfl
        exact hc.2
      · rw [if_neg hc] at h'
        cases h'

theorem parseCalendarData_ge_today (tz : Int) (today : JSDate) (ics : Str) :
    ∀ e ∈ parseCalendarData tz today ics, jsDateGE tz e.dtstart today = true := by
  suffices h : ∀ lines : List Str, ∀ st : PState,
      (∀ e ∈ st.events, jsDateGE tz e.dtstart today = true) →
      ∀ e ∈ (List.foldl (processLine tz today) st lines).events,
        jsDateGE tz e.dtstart today = true by
    intro e he
    exact h _ ⟨none, []⟩ (by intro e2 h2; cases h2) e he
  intro lines
  induction lines with
  | nil => exact fun st h e he => h e he
  | cons l rest ih =>
    intro st h e he
    rw [List.foldl_cons] at he
    refine ih (processLine tz today st l) ?_ e he
    intro e2 he2
    unfold processLine at he2
    by_cases hb : l = ("BEGIN:VEVENT".toList)
    · rw [if_pos hb] at he2
      exact h e2 he2
    · rw [if_neg hb] at he2
      by_cases hend : l = ("END:VEVENT".toList)
      · rw [if_pos hend] at he2
        cases hcur : st.cur with
        | none => rw [hcur] at he2; exact h e2 he2
        | some pe =>
          rw [hcur] at he2
          rcases List.mem_append.mp he2 with hm | hm
          · exact h e2 hm
          · exact commitEvent_ge tz today pe e2 hm
      · rw [if_neg hend] at he2
        cases hcur : st.cur with
        | none => rw [hcur] at he2; exact h e2 he2
        | some pe => rw [hcur] at he2; exact h e2 he2

theorem jsDateGE_some (tz : Int) (a b : JSDate) (t : Int)
    (hge : jsDateGE tz a b = true) (hb : jsGetTime tz b = some t) :
    ∃ x, jsGetTime tz a = some x ∧ t ≤ x := by
  unfold jsDateGE at hge
  cases ha : jsGetTime tz a with
  | none => rw [ha] at hge; cases hge
  | some x =>
    rw [ha, hb] at hge
    exact ⟨x, rfl, of_decide_eq_true hge⟩

/-- The ICS document used for the concrete two-request scenario. -/
def sampleIcs : Str :=
  ("BEGIN:VCALENDAR\nBEGIN:VEVENT\nSUMMARY:Test\nDTSTART:20250101\nEND:VEVENT\nEND:VCALENDAR").toList

/-- C2 counterexample: no date filter runs at serving time.  A first
request on 2025-01-01 at 23:59 fetches and caches an event starting
2025-01-01 00:00 (it passes the parse-time filter).  A second request
at 2025-01-02 00:05 is served from the still-fresh cache and returns
that event, whose start (epoch 1735689600000) is strictly before the
second request's own start-of-day reference (epoch 1735776000000) —
violating the claim for cache-served events. -/
theorem served_event_before_request_asof :
    (handleRequest 0 true
        (handleRequest 0 true initialCache 1735775940000
          (.jslocal ⟨2025, 0, 1, 0, 0, 0⟩) ⟨false, none, none⟩ (.ok sampleIcs)).2.1
        1735776300000 (.jslocal ⟨2025, 0, 2, 0, 0, 0⟩) ⟨false, none, none⟩
        (.error none)).1 =
      .ok .fresh_cache [⟨("Test".toList), some 1735689600000, none, true⟩] 1 ∧
    (1735689600000 : Int) < startOfDayEpoch 0 1735776300000 := by
  exact ⟨by decide, by decide⟩

/-- C2 amended: the date filter runs only at parse time.  For a request
served by a fresh synchronous fetch, every returned event's start is at
or after the day reference captured when that body was parsed (which
for such a request is the request's own asOf); a cache-served request
only inherits the guarantee relative to the parse time of the cached
entry, not its own asOf. -/
theorem fresh_fetch_events_after_parse_asof
    (tz : Int) (cache : Cache) (now asOf : Int) (parseToday : JSDate) (q : Query) (body : Str)
    (htest : q.test = false)
    (httl : cache.ttl ≤ cache.maxStaleAge)
    (htier : cache.data = none ∨ cache.maxStaleAge ≤ now - cache.timestamp)
    (htoday : jsGetTime tz parseToday = some asOf) :
    (handleRequest tz true cache now parseToday q (.ok body)).1 =
      .ok .fresh_fetch (applyPipeline tz q (parseCalendarData tz parseToday body))
        (applyPipeline tz q (parseCalendarData tz parseToday body)).length ∧
    ∀ fe ∈ applyPipeline tz q (parseCalendarData tz parseToday body),
      ∃ t, fe.startDate = some t ∧ asOf ≤ t := by
  constructor
  · have h1 : ¬ (cache.data.isSome = true ∧ now - cache.timestamp < cache.ttl) := by
      rcases htier with h | h
      · rintro ⟨hs, -⟩
        rw [h] at hs
        cases hs
      · rintro ⟨-, hlt⟩
        omega
    have h2 : ¬ (cache.data.isSome = true ∧ now - cache.timestamp < cache.maxStaleAge) := by
      rcases htier with h | h
      · rintro ⟨hs, -⟩
        rw [h] at hs
        cases hs
      · rintro ⟨-, hlt⟩
        omega
    simp [handleRequest, htest, h1, h2]
  · intro fe hfe
    obtain ⟨e, he, rfl⟩ := applyPipeline_mem tz q _ fe hfe
    have hge := parseCalendarData_ge_today tz parseToday body e he
    obtain ⟨x, hx, hle⟩ := jsDateGE_some tz e.dtstart parseToday asOf hge htoday
    exact ⟨x, by simp [formatEvent, hx], hle⟩

theorem fresh_fetch_events_after_parse_asof_witness :
    Query.test ⟨false, none, none⟩ = false ∧
    initialCache.ttl ≤ initialCache.maxStaleAge ∧
    (initialCache.data = none ∨
      initialCache.maxStaleAge ≤ 1735775940000 - initialCache.timestamp) ∧
    jsGetTime 0 (.jslocal ⟨2025, 0, 1, 0, 0, 0⟩) = some 1735689600000 ∧
    (handleRequest 0 true initialCache 1735775940000 (.jslocal ⟨2025, 0, 1, 0, 0, 0⟩)
        ⟨false, none, none⟩ (.ok sampleIcs)).1 =
      .ok .fresh_fetch
        (applyPipeline 0 ⟨false, none, none⟩
          (parseCalendarData 0 (.jslocal ⟨2025, 0, 1, 0, 0, 0⟩) sampleIcs))
        (applyPipeline 0 ⟨false, none, none⟩
          (parseCalendarData 0 (.jslocal ⟨2025, 0, 1, 0, 0, 0⟩) sampleIcs)).length := by
  refine ⟨rfl, by decide, Or.inl rfl, by decide, ?_⟩
  exact (fresh_fetch_events_after_parse_asof 0 initialCache 1735775940000 1735689600000
    (.jslocal ⟨2025, 0, 1, 0, 0, 0⟩) ⟨false, none, none⟩ sampleIcs rfl (by decide)
    (Or.inl rfl) (by decide)).1
